import Mathlib

/-!
Verification of the Token-Saver compression core against its
natural-language specification.

Shallow embedding of the Python sources under src/: the compression
engine (src/engine.py), configuration loading (src/config.py), and the
processors cited by the claims (src/processors/git.py, lint_output.py,
test_output.py, cloud_cli.py, network.py, file_content.py) together
with their shared sub-algorithms.  Machine strings are Lean `String`s
(Python `len` = number of code points = `String.length`), Python floats
appearing only in ratio comparisons are modelled as rationals, and
Python exceptions are modelled by `Option` (`none` = the call raises).
-/

namespace TokenSaver

/-! ## Python string helpers -/

/-- ASCII whitespace, the characters Python's str.strip / str.split
treat as whitespace on the inputs this code base meets. -/
def isPySpace (c : Char) : Bool :=
  c = ' ' || c = '\t' || c = '\n' || c = '\r' || c = '\x0b' || c = '\x0c'

/-- Python `\w` (ASCII range, as used by the source's patterns). -/
def isWordChar (c : Char) : Bool :=
  c.isAlpha || c.isDigit || c = '_'

def pyStripList (cs : List Char) : List Char :=
  ((cs.dropWhile isPySpace).reverse.dropWhile isPySpace).reverse

/-- Python str.strip(). -/
def pyStrip (s : String) : String := String.mk (pyStripList s.data)

/-- Python str.startswith(pre). -/
def pyStartsWith (pre s : String) : Bool := pre.data.isPrefixOf s.data

/-- Python str.lower() (ASCII case mapping suffices here). -/
def pyLower (s : String) : String := String.mk (s.data.map Char.toLower)

/-- Python str.upper() (ASCII case mapping suffices here). -/
def pyUpper (s : String) : String := String.mk (s.data.map Char.toUpper)

def splitLinesCh (acc : List Char) : List Char → List (List Char)
  | [] => if acc.isEmpty then [] else [acc.reverse]
  | '\n' :: rest => acc.reverse :: splitLinesCh [] rest
  | c :: rest => splitLinesCh (c :: acc) rest

/-- Python str.splitlines() (the outputs the sources split contain only
newline separators; a trailing newline yields no empty final line). -/
def pySplitLines (s : String) : List String := (splitLinesCh [] s.data).map String.mk

/-- Python "\n".join(lines). -/
def joinLines (lines : List String) : String := String.intercalate "\n" lines

/-- Python str.split() with no argument: split on whitespace runs,
discarding empty fields. -/
def pySplitWs (s : String) : List String :=
  (s.data.splitOnP isPySpace).map String.mk |>.filter (fun t => t ≠ "")

/-- Python l[-k:] on lists: for k = 0 this is the whole list, otherwise
the last k elements. -/
def pyLastSlice {α : Type} (k : Nat) (l : List α) : List α :=
  if k = 0 then l else l.drop (l.length - k)

def repeatStr (s : String) (n : Nat) : String := String.join (List.replicate n s)

/-! ## src/engine.py — CompressionEngine

The engine iterates the discovered processors in priority order; the
registry guarantees the generic fallback processor is the distinct last
element, so the source's identity test `processor is not self._generic`
holds exactly for the specialized (non-last) processors.  The embedding
therefore carries the specialized processors and the generic processor
separately.  The generic processor's own module is not part of src/, so
its `process` and `clean` operations are left as arbitrary string
functions; every theorem below holds for all of them. -/

structure Proc where
  name : String
  canHandle : String → Bool
  process : String → String → String

structure GenericProc extends Proc where
  clean : String → String

structure EngineConfig where
  enabled : Bool
  minInputLength : Int
  minCompressionRatio : ℚ

/-- `gain = (original_len - compressed_len) / original_len if original_len > 0 else 0`
(src/engine.py line 43), with the float arithmetic modelled exactly on ℚ. -/
def gainQ (originalLen resultLen : Nat) : ℚ :=
  if 0 < originalLen then ((originalLen : ℚ) - (resultLen : ℚ)) / (originalLen : ℚ) else 0

/-- CompressionEngine.compress (src/engine.py lines 18-62).
Returns (compressed_output, processor_name, was_compressed). -/
def compress (cfg : EngineConfig) (specialized : List Proc) (generic : GenericProc)
    (command output : String) : String × String × Bool :=
  if !cfg.enabled then (output, "none", false)
  else if (output.length : Int) < cfg.minInputLength then (output, "none", false)
  else
    match specialized.find? (fun p => p.canHandle command) with
    | some p =>
        let compressed := generic.clean (p.process command output)
        let gain := gainQ output.length compressed.length
        if cfg.minCompressionRatio ≤ gain then (compressed, p.name, true)
        else
          let genericCompressed := generic.clean (generic.process command output)
          let genericGain := gainQ output.length genericCompressed.length
          if cfg.minCompressionRatio ≤ genericGain then (genericCompressed, "generic", true)
          else (output, p.name, false)
    | none =>
        if generic.canHandle command then
          let compressed := generic.process command output
          let gain := gainQ output.length compressed.length
          if cfg.minCompressionRatio ≤ gain then (compressed, generic.name, true)
          else (output, generic.name, false)
        else (output, "none", false)

/-! ## src/config.py — configuration loading -/

inductive ConfigVal where
  | b (v : Bool)
  | i (v : Int)
  | f (v : ℚ)
  | s (v : String)
deriving DecidableEq

/-- Digits of a Python int literal string after the first digit:
underscores are allowed only between digits. -/
def pyDigitsGo (acc : Nat) : List Char → Option Nat
  | [] => some acc
  | '_' :: [] => none
  | '_' :: c :: rest =>
      if c.isDigit then pyDigitsGo (acc * 10 + (c.toNat - 48)) rest else none
  | c :: rest =>
      if c.isDigit then pyDigitsGo (acc * 10 + (c.toNat - 48)) rest else none

/-- Nonempty digit run with Python underscore rules, also returning the
number of digits (needed for fractional scaling). -/
def pyDigitsCount (acc : Nat) (cnt : Nat) : List Char → Option (Nat × Nat)
  | [] => some (acc, cnt)
  | '_' :: [] => none
  | '_' :: c :: rest =>
      if c.isDigit then pyDigitsCount (acc * 10 + (c.toNat - 48)) (cnt + 1) rest else none
  | c :: rest =>
      if c.isDigit then pyDigitsCount (acc * 10 + (c.toNat - 48)) (cnt + 1) rest else none

def pyParseNat : List Char → Option Nat
  | [] => none
  | c :: rest => if c.isDigit then pyDigitsGo (c.toNat - 48) rest else none

/-- Python int(s): surrounding whitespace stripped, optional sign,
nonempty digits with underscores between digits; anything else raises
(`none`; the source suppresses the ValueError and keeps the default). -/
def pyParseInt (s : String) : Option Int :=
  match pyStripList s.data with
  | '+' :: rest => (pyParseNat rest).map Int.ofNat
  | '-' :: rest => (pyParseNat rest).map (fun n => -(n : Int))
  | cs => (pyParseNat cs).map Int.ofNat

def pyDigitsOpt : List Char → Option (Nat × Nat)
  | [] => some (0, 0)
  | c :: rest => if c.isDigit then pyDigitsCount (c.toNat - 48) 1 rest else none

def splitFirstOn (p : Char → Bool) : List Char → (List Char × Option (List Char))
  | [] => ([], none)
  | c :: rest =>
      if p c then ([], some rest)
      else
        let (a, b) := splitFirstOn p rest
        (c :: a, b)

def parseFloatMantissa (cs : List Char) : Option ℚ :=
  let (ip, fp?) := splitFirstOn (fun c => c = '.') cs
  match fp? with
  | none =>
      match pyDigitsOpt ip with
      | some (v, cnt) => if cnt = 0 then none else some (v : ℚ)
      | none => none
  | some fp =>
      match pyDigitsOpt ip, pyDigitsOpt fp with
      | some (iv, icnt), some (fv, fcnt) =>
          if icnt = 0 && fcnt = 0 then none
          else some ((iv : ℚ) + (fv : ℚ) / ((10 : ℚ) ^ fcnt))
      | _, _ => none

def parseFloatBody (cs : List Char) : Option ℚ :=
  let (mant, exp?) := splitFirstOn (fun c => c = 'e' || c = 'E') cs
  match parseFloatMantissa mant with
  | none => none
  | some m =>
      match exp? with
      | none => some m
      | some ecs =>
          let (sign, digits) :=
            match ecs with
            | '+' :: rest => ((1 : Int), rest)
            | '-' :: rest => ((-1 : Int), rest)
            | rest => ((1 : Int), rest)
          match pyDigitsOpt digits with
          | some (e, cnt) =>
              if cnt = 0 then none
              else if sign = 1 then some (m * (10 : ℚ) ^ e)
              else some (m / (10 : ℚ) ^ e)
          | none => none

/-- Python float(s) on finite decimal literals, the only forms the
configuration meets; the exact rational value is kept (IEEE rounding is
immaterial: loaded floats are only compared, never recombined). -/
def pyParseFloat (s : String) : Option ℚ :=
  match pyStripList s.data with
  | '+' :: rest => parseFloatBody rest
  | '-' :: rest => (parseFloatBody rest).map Neg.neg
  | cs => parseFloatBody cs

/-- _DEFAULTS (src/config.py lines 11-46); 0.10 is the rational 1/10. -/
def configDefaults : List (String × ConfigVal) :=
  [("enabled", .b true),
   ("min_input_length", .i 200),
   ("min_compression_ratio", .f (1/10)),
   ("wrap_timeout", .i 300),
   ("max_diff_hunk_lines", .i 150),
   ("max_diff_context_lines", .i 3),
   ("max_log_entries", .i 20),
   ("max_file_lines", .i 300),
   ("file_keep_head", .i 150),
   ("file_keep_tail", .i 50),
   ("generic_truncate_threshold", .i 500),
   ("generic_keep_head", .i 200),
   ("generic_keep_tail", .i 100),
   ("ls_compact_threshold", .i 20),
   ("find_compact_threshold", .i 30),
   ("tree_compact_threshold", .i 50),
   ("lint_example_count", .i 2),
   ("lint_group_threshold", .i 3),
   ("file_code_head_lines", .i 20),
   ("file_code_body_lines", .i 3),
   ("file_log_context_lines", .i 2),
   ("file_csv_head_rows", .i 5),
   ("file_csv_tail_rows", .i 3),
   ("search_max_per_file", .i 3),
   ("search_max_files", .i 20),
   ("kubectl_keep_head", .i 10),
   ("kubectl_keep_tail", .i 20),
   ("docker_log_keep_head", .i 10),
   ("docker_log_keep_tail", .i 20),
   ("git_branch_threshold", .i 30),
   ("git_stash_threshold", .i 10),
   ("max_traceback_lines", .i 30),
   ("db_prune_days", .i 90),
   ("debug", .b false)]

/-- Python dict assignment `config[k] = v` on the insertion-ordered
association list representation. -/
def updateAssoc (cfg : List (String × ConfigVal)) (k : String) (v : ConfigVal) :
    List (String × ConfigVal) :=
  if cfg.any (fun p => p.1 = k) then
    cfg.map (fun p => if p.1 = k then (k, v) else p)
  else cfg ++ [(k, v)]

/-- Dictionary read `config.get(k)` (keys are unique). -/
def lookupCfg : List (String × ConfigVal) → String → Option ConfigVal
  | [], _ => none
  | (k', v) :: rest, k => if k' = k then some v else lookupCfg rest k

/-- One iteration of the environment-override loop of _load_config
(src/config.py lines 70-83), for the defaults entry `kd`. -/
def envOverlayStep (env : String → Option String)
    (cfg : List (String × ConfigVal)) (kd : String × ConfigVal) :
    List (String × ConfigVal) :=
  match env ("TOKEN_SAVER_" ++ pyUpper kd.1) with
  | none => cfg
  | some v =>
      match kd.2 with
      | .b _ =>
          updateAssoc cfg kd.1 (.b (pyLower v = "1" || pyLower v = "true" || pyLower v = "yes"))
      | .i _ =>
          match pyParseInt v with
          | some n => updateAssoc cfg kd.1 (.i n)
          | none => cfg
      | .f _ =>
          match pyParseFloat v with
          | some q => updateAssoc cfg kd.1 (.f q)
          | none => cfg
      | .s _ => updateAssoc cfg kd.1 (.s v)

/-- _load_config (src/config.py lines 53-85).  The optional file config
models the JSON config file (`none` also covers an unreadable or
malformed file, which the source swallows); `env` models os.environ. -/
def loadConfig (fileConfig : Option (List (String × ConfigVal)))
    (env : String → Option String) : List (String × ConfigVal) :=
  let cfg :=
    match fileConfig with
    | some user => user.foldl (fun c kv => updateAssoc c kv.1 kv.2) configDefaults
    | none => configDefaults
  configDefaults.foldl (envOverlayStep env) cfg

/-- An environment holding exactly one variable. -/
def envSingle (key v : String) : String → Option String :=
  fun e => if e = key then some v else none

/-- The defaults preceding the "max_diff_context_lines" entry. -/
def defaultsBeforeMDC : List (String × ConfigVal) :=
  [("enabled", .b true),
   ("min_input_length", .i 200),
   ("min_compression_ratio", .f (1/10)),
   ("wrap_timeout", .i 300),
   ("max_diff_hunk_lines", .i 150)]

/-- The defaults following the "max_diff_context_lines" entry. -/
def defaultsAfterMDC : List (String × ConfigVal) :=
  [("max_log_entries", .i 20),
   ("max_file_lines", .i 300),
   ("file_keep_head", .i 150),
   ("file_keep_tail", .i 50),
   ("generic_truncate_threshold", .i 500),
   ("generic_keep_head", .i 200),
   ("generic_keep_tail", .i 100),
   ("ls_compact_threshold", .i 20),
   ("find_compact_threshold", .i 30),
   ("tree_compact_threshold", .i 50),
   ("lint_example_count", .i 2),
   ("lint_group_threshold", .i 3),
   ("file_code_head_lines", .i 20),
   ("file_code_body_lines", .i 3),
   ("file_log_context_lines", .i 2),
   ("file_csv_head_rows", .i 5),
   ("file_csv_tail_rows", .i 3),
   ("search_max_per_file", .i 3),
   ("search_max_files", .i 20),
   ("kubectl_keep_head", .i 10),
   ("kubectl_keep_tail", .i 20),
   ("docker_log_keep_head", .i 10),
   ("docker_log_keep_tail", .i 20),
   ("git_branch_threshold", .i 30),
   ("git_stash_threshold", .i 10),
   ("max_traceback_lines", .i 30),
   ("db_prune_days", .i 90),
   ("debug", .b false)]

/-! ## src/processors/test_output.py — traceback truncation -/

/-- TestOutputProcessor._truncate_traceback (src/processors/test_output.py
lines 55-68).  `block[:keep_head]` is `take`, `block[-keep_tail:]` is
`pyLastSlice`. -/
def truncateTraceback (maxLines : Nat) (block : List String) : List String :=
  if block.length ≤ maxLines then block
  else
    let keepHead := maxLines / 2
    let keepTail := maxLines - keepHead
    let omitted := block.length - keepHead - keepTail
    block.take keepHead
      ++ ["    ... (" ++ toString omitted ++ " traceback lines truncated)"]
      ++ pyLastSlice keepTail block

/-! ## JSON-like structured values

Model of the values json.loads produces.  Dict insertion order is the
field-list order.  JSON numbers are modelled as integers; the
summarizers pass numbers through opaquely, so the numeric representation
is immaterial to every claim. -/

inductive Json where
  | obj (fields : List (String × Json))
  | arr (elems : List Json)
  | str (s : String)
  | int (n : Int)
  | bool (b : Bool)
  | null

/-- Stems of _IMPORTANT_KEY_RE (src/processors/cloud_cli.py lines
12-15); `re.match` performs a case-insensitive prefix match, under which
the alternative `tags?` is equivalent to the stem `tag`. -/
def importantKeyStems : List String :=
  ["error", "status", "state", "name", "id", "arn", "message",
   "code", "reason", "type", "tag", "key", "value", "label"]

/-- `_IMPORTANT_KEY_RE.match(k)` — anchored, case-insensitive. -/
def isImportantKey (k : String) : Bool :=
  importantKeyStems.any (fun stem => stem.data.isPrefixOf (pyLower k).data)

/-- Python `value[:197] + "..."`. -/
def truncate197 (s : String) : String := String.mk (s.data.take 197) ++ "..."

mutual

/-- CloudCliProcessor._compress_json_value (src/processors/cloud_cli.py
lines 76-120).  The placeholder strings are the source's f-strings.
`[f(item) for item in value[:3]]` is computed as the elementwise map
followed by `take 3`, which is the same list. -/
def compressJsonValue (value : Json) (depth maxDepth : Nat) : Json :=
  if depth ≥ maxDepth then
    match value with
    | .obj kvs => .str ("\x7b... " ++ toString kvs.length ++ " keys\x7d")
    | .arr xs => .str ("[... " ++ toString xs.length ++ " items]")
    | .str s => if s.length > 200 then .str (truncate197 s) else .str s
    | v => v
  else
    match value with
    | .obj kvs => .obj (compressJsonFields kvs depth maxDepth)
    | .arr xs =>
        if xs.length = 0 then .arr xs
        else if xs.length ≤ 5 then .arr (compressJsonElems xs depth maxDepth)
        else .arr ((compressJsonElems xs depth maxDepth).take 3
          ++ [.str ("... (" ++ toString (xs.length - 3) ++ " more items)")])
    | .str s => if s.length > 200 then .str (truncate197 s) else .str s
    | v => v

/-- The dict branch of _compress_json_value: important keys recurse at
the same depth with maxDepth + 1, all other keys at depth + 1. -/
def compressJsonFields (kvs : List (String × Json)) (depth maxDepth : Nat) :
    List (String × Json) :=
  match kvs with
  | [] => []
  | (k, v) :: rest =>
      (k, if isImportantKey k
          then compressJsonValue v depth (maxDepth + 1)
          else compressJsonValue v (depth + 1) maxDepth)
        :: compressJsonFields rest depth maxDepth

/-- The list branch of _compress_json_value: elements are compressed at
the unchanged depth. -/
def compressJsonElems (xs : List Json) (depth maxDepth : Nat) : List Json :=
  match xs with
  | [] => []
  | x :: rest => compressJsonValue x depth maxDepth :: compressJsonElems rest depth maxDepth

end

mutual

/-- Does the string `s` occur anywhere in the value (as a string leaf or
a field name)?  Used to state that a value was lost by summarization. -/
def jsonMentionsStr (s : String) : Json → Bool
  | .obj kvs => jsonFieldsMention s kvs
  | .arr xs => jsonElemsMention s xs
  | .str t => decide (t = s)
  | _ => false

def jsonFieldsMention (s : String) : List (String × Json) → Bool
  | [] => false
  | (k, v) :: rest => decide (k = s) || jsonMentionsStr s v || jsonFieldsMention s rest

def jsonElemsMention (s : String) : List Json → Bool
  | [] => false
  | x :: rest => jsonMentionsStr s x || jsonElemsMention s rest

end

/-- First field with the given name (Python dict keys are unique). -/
def lookupField (kvs : List (String × Json)) (k : String) : Option Json :=
  match kvs with
  | [] => none
  | (k', v) :: rest => if k' = k then some v else lookupField rest k

/-- Walk a chain of object keys. -/
def walkPath (v : Json) (path : List String) : Option Json :=
  match path, v with
  | [], _ => some v
  | k :: rest, .obj kvs =>
      match lookupField kvs k with
      | some w => walkPath w rest
      | none => none
  | _ :: _, _ => none

/-- The depth budget along a key path, mirroring _compress_json_value:
every object on the path must be reached at depth < maxDepth; important
keys keep the depth and gain one level of allowance, other keys cost a
level. -/
def pathFits (path : List String) (depth maxDepth : Nat) : Bool :=
  match path with
  | [] => decide (depth < maxDepth)
  | k :: rest =>
      decide (depth < maxDepth) &&
      (if isImportantKey k then pathFits rest depth (maxDepth + 1)
       else pathFits rest (depth + 1) maxDepth)

/-- Scalars that _compress_json_value returns unchanged at any depth. -/
def isScalarPreserved : Json → Bool
  | .obj _ => false
  | .arr _ => false
  | .str s => decide (s.length ≤ 200)
  | _ => true

/-! ## String-rendering JSON summarizers

NetworkProcessor._summarize_json (src/processors/network.py lines
176-201) and FileContentProcessor._summarize_json_value
(src/processors/file_content.py lines 311-333) render summaries as
strings, using json.dumps for leaves. -/

def hexDigit (n : Nat) : Char :=
  if n < 10 then Char.ofNat (48 + n) else Char.ofNat (87 + (n - 10))

/-- json.dumps escaping of one character inside a string literal
(default ensure_ascii=True; characters above U+FFFF do not occur in the
inputs considered). -/
def jsonEscapeChar (c : Char) : String :=
  if c = '"' then "\\\""
  else if c = '\\' then "\\\\"
  else if c = '\n' then "\\n"
  else if c = '\t' then "\\t"
  else if c = '\r' then "\\r"
  else if c.toNat < 32 || c.toNat > 126 then
    let n := c.toNat
    String.mk ['\\', 'u', hexDigit (n / 4096 % 16), hexDigit (n / 256 % 16),
               hexDigit (n / 16 % 16), hexDigit (n % 16)]
  else String.mk [c]

def jsonDumpsString (s : String) : String :=
  "\"" ++ String.join (s.data.map jsonEscapeChar) ++ "\""

/-- json.dumps on the leaves the summarizers dump (strings and scalars;
containers are handled by the summarizers before reaching dumps). -/
def jsonDumpsScalar : Json → String
  | .str s => jsonDumpsString s
  | .int n => toString n
  | .bool true => "true"
  | .bool false => "false"
  | .null => "null"
  | _ => ""

mutual

/-- NetworkProcessor._summarize_json (src/processors/network.py lines
176-201).  The list branch of the source checks `len(val) == 0`,
`len(val) <= 2`, else keeps `val[0]` only, appending the total item
count; elements recurse at depth + 1. -/
def networkSummarizeJson (val : Json) (depth maxDepth : Nat) : String :=
  let indent := repeatStr "  " depth
  match val with
  | .obj kvs =>
      if depth ≥ maxDepth then "\x7b" ++ toString kvs.length ++ " keys\x7d"
      else
        "\x7b\n" ++
          String.intercalate ",\n" (networkSummarizeFields kvs depth maxDepth) ++
          "\n" ++ indent ++ "\x7d"
  | .arr [] => "[]"
  | .arr (x :: rest) =>
      if rest.length + 1 ≤ 2 then
        "[" ++ String.intercalate ", " (networkSummarizeElems (x :: rest) depth maxDepth) ++ "]"
      else
        "[" ++ networkSummarizeJson x (depth + 1) maxDepth ++
          ", ... (" ++ toString (rest.length + 1) ++ " items total)]"
  | .str s =>
      if s.length > 80 then
        "\"" ++ String.mk (s.data.take 60) ++ "...\" (" ++ toString s.length ++ " chars)"
      else jsonDumpsScalar (.str s)
  | v => jsonDumpsScalar v

def networkSummarizeFields (kvs : List (String × Json)) (depth maxDepth : Nat) :
    List String :=
  match kvs with
  | [] => []
  | (k, v) :: rest =>
      (repeatStr "  " depth ++ "  \"" ++ k ++ "\": " ++
        networkSummarizeJson v (depth + 1) maxDepth)
        :: networkSummarizeFields rest depth maxDepth

def networkSummarizeElems (xs : List Json) (depth maxDepth : Nat) : List String :=
  match xs with
  | [] => []
  | x :: rest =>
      networkSummarizeJson x (depth + 1) maxDepth :: networkSummarizeElems rest depth maxDepth

end

mutual

/-- FileContentProcessor._summarize_json_value (src/processors/
file_content.py lines 311-333).  Lists of length ≤ 3 are summarized in
full; longer lists keep the first three elements and append the total
item count; elements recurse at depth + 1.  `[f(v) for v in val[:3]]`
is the elementwise map followed by `take 3`. -/
def fileSummarizeJsonValue (val : Json) (depth maxDepth : Nat) : String :=
  let indent := repeatStr "  " depth
  match val with
  | .obj kvs =>
      if depth ≥ maxDepth then "\x7b" ++ toString kvs.length ++ " keys\x7d"
      else
        "\x7b\n" ++
          String.intercalate ",\n" (fileSummarizeFields kvs depth maxDepth) ++
          "\n" ++ indent ++ "\x7d"
  | .arr [] => "[]"
  | .arr (x :: rest) =>
      if rest.length + 1 ≤ 3 then
        "[" ++ String.intercalate ", " (fileSummarizeElems (x :: rest) depth maxDepth) ++ "]"
      else
        "[" ++
          String.intercalate ", " ((fileSummarizeElems (x :: rest) depth maxDepth).take 3) ++
          ", ... (" ++ toString (rest.length + 1) ++ " items total)]"
  | .str s =>
      if s.length > 100 then
        "\"" ++ String.mk (s.data.take 80) ++ "...\" (" ++ toString s.length ++ " chars)"
      else jsonDumpsScalar (.str s)
  | v => jsonDumpsScalar v

def fileSummarizeFields (kvs : List (String × Json)) (depth maxDepth : Nat) :
    List String :=
  match kvs with
  | [] => []
  | (k, v) :: rest =>
      (repeatStr "  " depth ++ "  \"" ++ k ++ "\": " ++
        fileSummarizeJsonValue v (depth + 1) maxDepth)
        :: fileSummarizeFields rest depth maxDepth

def fileSummarizeElems (xs : List Json) (depth maxDepth : Nat) : List String :=
  match xs with
  | [] => []
  | x :: rest =>
      fileSummarizeJsonValue x (depth + 1) maxDepth :: fileSummarizeElems rest depth maxDepth

end

/-! ## src/processors/git.py — _process_log -/

/-- `re.search(r"--graph\b", command)`: an occurrence of "--graph"
followed by a non-word character or the end of the string. -/
def containsGraphFlag : List Char → Bool
  | [] => false
  | c :: rest =>
      ("--graph".data.isPrefixOf (c :: rest) &&
        (match (c :: rest).drop 7 with
         | [] => true
         | d :: _ => !isWordChar d)) || containsGraphFlag rest

/-- `re.match(r"^[|*/\\ ]*[|*/\\]", line)`: a run of graph characters
and spaces containing at least one non-space graph character before any
other character. -/
def lineLooksGraph : List Char → Bool
  | [] => false
  | c :: rest =>
      if c = '|' || c = '*' || c = '/' || c = '\\' then true
      else if c = ' ' then lineLooksGraph rest
      else false

/-- The entry-splitting loop of _process_log (src/processors/git.py
lines 310-320): group lines into entries starting at "commit " lines. -/
def buildLogEntries (current : List String) (entries : List (List String)) :
    List String → List (List String)
  | [] => entries ++ (if current.isEmpty then [] else [current])
  | line :: rest =>
      if pyStartsWith "commit " line then
        buildLogEntries [line] (entries ++ (if current.isEmpty then [] else [current])) rest
      else
        buildLogEntries (current ++ [line]) entries rest

/-- The per-entry loop of _process_log (src/processors/git.py lines
323-335).  On a line starting "commit " the source evaluates
`line.split()[1][:8]`, which raises IndexError when the line has no
second field; the raise is modelled by `none`. -/
def logEntryFields (commitHash message : String) : List String → Option (String × String)
  | [] => some (commitHash, message)
  | line :: rest =>
      if pyStartsWith "commit " line then
        match (pySplitWs line).get? 1 with
        | none => none
        | some tok => logEntryFields (String.mk (tok.data.take 8)) message rest
      else if pyStrip line ≠ "" &&
              !(pyStartsWith "Author:" line || pyStartsWith "Merge:" line ||
                pyStartsWith "Date:" line) &&
              message = "" then
        logEntryFields commitHash (pyStrip line) rest
      else logEntryFields commitHash message rest

def logEntrySummary (entry : List String) : Option String :=
  match logEntryFields "" "" entry with
  | none => none
  | some (h, m) => some (h ++ " " ++ m)

def summarizeLogEntries : List (List String) → Option (List String)
  | [] => some []
  | e :: rest =>
      match logEntrySummary e, summarizeLogEntries rest with
      | some s, some ss => some (s :: ss)
      | _, _ => none

/-- GitProcessor._process_log (src/processors/git.py lines 286-340),
with `maxEntries = config.get("max_log_entries")`.  `none` models the
function raising. -/
def processLog (maxEntries : Nat) (command output : String) : Option String :=
  let lines := pySplitLines output
  let hasGraph := containsGraphFlag command.data ||
    (!lines.isEmpty && (lines.take 10).any (fun l => lineLooksGraph l.data))
  if hasGraph then
    some (if lines.length > maxEntries * 4 then
            joinLines (lines.take (maxEntries * 4) ++
              ["... (" ++ toString (lines.length - maxEntries * 4) ++ " more lines)"])
          else output)
  else if (match lines with
           | [] => false
           | l :: _ => !pyStartsWith "commit " l) then
    some (if lines.length > maxEntries then
            joinLines (lines.take maxEntries) ++
              "\n... (" ++ toString (lines.length - maxEntries) ++ " more)"
          else output)
  else
    let entries := buildLogEntries [] [] lines
    match summarizeLogEntries (entries.take maxEntries) with
    | none => none
    | some results =>
        some (joinLines (results ++
          (if entries.length > maxEntries then
             ["... (" ++ toString (entries.length - maxEntries) ++ " more commits)"]
           else [])))

/-! ## A small backtracking regular-expression engine

Used to transliterate the lint processor's patterns.  Enumeration order
mirrors Python's leftmost backtracking search: alternatives in written
order, greedy repetition longest-first, lazy repetition shortest-first;
the head of the enumeration is the match Python reports.  `prev` is the
character preceding the current position (for word boundaries). -/

inductive Rx where
  | eps
  | cls (p : Char → Bool)
  | cat (a b : Rx)
  | alt (a b : Rx)
  | star (a : Rx) (lazy : Bool)
  | grp (i : Nat) (a : Rx)
  | eos
  | wb

def Rx.ch (c : Char) : Rx := .cls (fun d => d = c)

def Rx.chI (c : Char) : Rx := .cls (fun d => d.toLower = c)

def rxSeq (l : List Rx) : Rx := l.foldr Rx.cat .eps

def Rx.strLit (s : String) : Rx := rxSeq (s.data.map Rx.ch)

def Rx.strLitI (s : String) : Rx := rxSeq (s.data.map Rx.chI)

def Rx.plus (a : Rx) (lazy : Bool) : Rx := .cat a (.star a lazy)

def Rx.opt (a : Rx) : Rx := .alt a .eps

/-- `a\{2,\}` (greedy). -/
def Rx.rep2 (a : Rx) : Rx := .cat a (.cat a (.star a false))

def Rx.digit : Rx := .cls Char.isDigit

def Rx.space : Rx := .cls isPySpace

def Rx.nonspace : Rx := .cls (fun c => !isPySpace c)

def Rx.word : Rx := .cls isWordChar

def Rx.anyc : Rx := .cls (fun _ => true)

abbrev RxGroups := List (Nat × String)

/-- All ways to match `r` against a prefix of `cs`, in Python preference
order; each result is (rest, previous char, captured groups).  `fuel`
bounds the recursion depth (structurally, so the kernel can evaluate
matches); it is always supplied amply, far above the depth bound
(pattern size + 1) · (input length + 1). -/
def runRx : Nat → Rx → Option Char → List Char → RxGroups →
    List (List Char × Option Char × RxGroups)
  | 0, _, _, _, _ => []
  | fuel + 1, r, prev, cs, g =>
    match r with
    | .eps => [(cs, prev, g)]
    | .cls p =>
        match cs with
        | [] => []
        | c :: rest => if p c then [(rest, some c, g)] else []
    | .cat a b =>
        (runRx fuel a prev cs g).flatMap (fun t => runRx fuel b t.2.1 t.1 t.2.2)
    | .alt a b => runRx fuel a prev cs g ++ runRx fuel b prev cs g
    | .grp i a =>
        (runRx fuel a prev cs g).map
          (fun t => (t.1, t.2.1, (i, String.mk (cs.take (cs.length - t.1.length))) :: t.2.2))
    | .eos => if cs.isEmpty then [(cs, prev, g)] else []
    | .wb =>
        let pw := match prev with | some c => isWordChar c | none => false
        let nw := match cs with | c :: _ => isWordChar c | [] => false
        if pw != nw then [(cs, prev, g)] else []
    | .star a lz =>
        let once := (runRx fuel a prev cs g).filter (fun t => t.1.length < cs.length)
        let deeper := once.flatMap (fun t => runRx fuel (.star a lz) t.2.1 t.1 t.2.2)
        if lz then (cs, prev, g) :: deeper else deeper ++ [(cs, prev, g)]

/-- Ample recursion-depth fuel for matching against `cs`. -/
def rxFuel (cs : List Char) : Nat := (cs.length + 2) * 400

/-- re.match: anchored at the start; the groups of Python's match. -/
def rxMatch? (r : Rx) (s : String) : Option RxGroups :=
  match runRx (rxFuel s.data) r none s.data [] with
  | [] => none
  | t :: _ => some t.2.2

def rxSearchGo (r : Rx) (fuel : Nat) (prev : Option Char) (cs : List Char) :
    Option RxGroups :=
  match runRx fuel r prev cs [] with
  | t :: _ => some t.2.2
  | [] =>
      match cs with
      | [] => none
      | c :: rest => rxSearchGo r fuel (some c) rest

/-- re.search: leftmost match. -/
def rxSearch? (r : Rx) (s : String) : Option RxGroups :=
  rxSearchGo r (rxFuel s.data) none s.data

def rxTestMatch (r : Rx) (s : String) : Bool := (rxMatch? r s).isSome

def rxTestSearch (r : Rx) (s : String) : Bool := (rxSearch? r s).isSome

def grpGet (g : RxGroups) (i : Nat) : String :=
  ((g.find? (fun p => p.1 = i)).map (fun p => p.2)).getD ""

/-! ## src/processors/lint_output.py

The matchers of LintOutputProcessor._parse_violation (lines 108-170),
transliterated onto the engine above, in source order. -/

/-- ESLint indented: `^\s*(\d+):(\d+)\s+(error|warning)\s+(.+?)\s\{2,\}(\S+)\s*$` -/
def lintPat1 : Rx :=
  rxSeq [.star .space false, .grp 1 (.plus .digit false), .ch ':',
         .grp 2 (.plus .digit false), .plus .space false,
         .grp 3 (.alt (.strLit "error") (.strLit "warning")), .plus .space false,
         .grp 4 (.plus .anyc true), .rep2 .space, .grp 5 (.plus .nonspace false),
         .star .space false, .eos]

/-- ESLint inline: `^(.+?):(\d+):\d+:\s+.+\((\S+)\)\s*$` -/
def lintPat2 : Rx :=
  rxSeq [.grp 1 (.plus .anyc true), .ch ':', .grp 2 (.plus .digit false), .ch ':',
         .plus .digit false, .ch ':', .plus .space false, .plus .anyc false,
         .ch '(', .grp 3 (.plus .nonspace false), .ch ')', .star .space false, .eos]

/-- ESLint inline alt: `^(.+?):(\d+):\d+\s+(error|warning)\s+.+?\s\{2,\}(\S+)\s*$` -/
def lintPat3 : Rx :=
  rxSeq [.grp 1 (.plus .anyc true), .ch ':', .grp 2 (.plus .digit false), .ch ':',
         .plus .digit false, .plus .space false,
         .grp 3 (.alt (.strLit "error") (.strLit "warning")), .plus .space false,
         .plus .anyc true, .rep2 .space, .grp 4 (.plus .nonspace false),
         .star .space false, .eos]

/-- Ruff/Flake8: `^(.+?):(\d+):\d+:\s+([A-Z]\w?\d+)\s+` -/
def lintPat4 : Rx :=
  rxSeq [.grp 1 (.plus .anyc true), .ch ':', .grp 2 (.plus .digit false), .ch ':',
         .plus .digit false, .ch ':', .plus .space false,
         .grp 3 (rxSeq [.cls (fun c => 'A' ≤ c && c ≤ 'Z'), .opt .word,
                        .plus .digit false]),
         .plus .space false]

/-- Pylint: `^(.+?):(\d+):\d+:\s+\w+:\s+.+\((\S+)\)\s*$` -/
def lintPat5 : Rx :=
  rxSeq [.grp 1 (.plus .anyc true), .ch ':', .grp 2 (.plus .digit false), .ch ':',
         .plus .digit false, .ch ':', .plus .space false, .plus .word false, .ch ':',
         .plus .space false, .plus .anyc false, .ch '(',
         .grp 3 (.plus .nonspace false), .ch ')', .star .space false, .eos]

/-- mypy: `^(.+?):(\d+):\s+(error|warning|note):\s+.+\[(\S+)\]\s*$` -/
def lintPat6 : Rx :=
  rxSeq [.grp 1 (.plus .anyc true), .ch ':', .grp 2 (.plus .digit false), .ch ':',
         .plus .space false,
         .grp 3 (.alt (.strLit "error") (.alt (.strLit "warning") (.strLit "note"))),
         .ch ':', .plus .space false, .plus .anyc false, .ch '[',
         .grp 4 (.plus .nonspace false), .ch ']', .star .space false, .eos]

/-- Clippy: `^(warning|error)\[(\S+)\]` -/
def lintPat7 : Rx :=
  rxSeq [.grp 1 (.alt (.strLit "warning") (.strLit "error")), .ch '[',
         .grp 2 (.plus .nonspace false), .ch ']']

/-- Clippy/Rust fallback, search part: `\[([a-z][a-z0-9_-]+)\]\s*$` -/
def lintPat8Search : Rx :=
  rxSeq [.ch '[',
         .grp 1 (rxSeq [.cls (fun c => 'a' ≤ c && c ≤ 'z'),
                        .plus (.cls (fun c => ('a' ≤ c && c ≤ 'z') || c.isDigit ||
                                              c = '_' || c = '-')) false]),
         .ch ']', .star .space false, .eos]

/-- Clippy/Rust fallback, match part: `^(warning|error):` -/
def lintPat8Match : Rx :=
  rxSeq [.grp 1 (.alt (.strLit "warning") (.strLit "error")), .ch ':']

/-- shellcheck: `^In (.+?) line (\d+):` -/
def lintPat9a : Rx :=
  rxSeq [.strLit "In ", .grp 1 (.plus .anyc true), .strLit " line ",
         .grp 2 (.plus .digit false), .ch ':']

/-- shellcheck gcc-format: `^(.+?):(\d+):\d+:\s+(warning|error|info|style)\s*-\s*(SC\d+)` -/
def lintPat9b : Rx :=
  rxSeq [.grp 1 (.plus .anyc true), .ch ':', .grp 2 (.plus .digit false), .ch ':',
         .plus .digit false, .ch ':', .plus .space false,
         .grp 3 (.alt (.strLit "warning")
                  (.alt (.strLit "error") (.alt (.strLit "info") (.strLit "style")))),
         .star .space false, .ch '-', .star .space false,
         .grp 4 (rxSeq [.strLit "SC", .plus .digit false])]

/-- hadolint: `^(.+?):(\d+)\s+(DL\d+|SC\d+)\s+` -/
def lintPat10 : Rx :=
  rxSeq [.grp 1 (.plus .anyc true), .ch ':', .grp 2 (.plus .digit false),
         .plus .space false,
         .grp 3 (.alt (rxSeq [.strLit "DL", .plus .digit false])
                      (rxSeq [.strLit "SC", .plus .digit false])),
         .plus .space false]

/-- biome: `^(.+?):(\d+):\d+\s+(lint/\S+)\s+` -/
def lintPat11 : Rx :=
  rxSeq [.grp 1 (.plus .anyc true), .ch ':', .grp 2 (.plus .digit false), .ch ':',
         .plus .digit false, .plus .space false,
         .grp 3 (rxSeq [.strLit "lint/", .plus .nonspace false]),
         .plus .space false]

/-- LintOutputProcessor._parse_violation (lines 108-170): the matchers
in source order, returning (rule_id, filepath) from the first match. -/
def lintParseViolation (line currentFile : String) : Option (String × String) :=
  ((rxMatch? lintPat1 line).map (fun g => (grpGet g 5, currentFile))) <|>
  ((rxMatch? lintPat2 line).map (fun g => (grpGet g 3, grpGet g 1))) <|>
  ((rxMatch? lintPat3 line).map (fun g => (grpGet g 4, grpGet g 1))) <|>
  ((rxMatch? lintPat4 line).map (fun g => (grpGet g 3, grpGet g 1))) <|>
  ((rxMatch? lintPat5 line).map (fun g => (grpGet g 3, grpGet g 1))) <|>
  ((rxMatch? lintPat6 line).map (fun g => (grpGet g 4, grpGet g 1))) <|>
  ((rxMatch? lintPat7 line).map (fun g => (grpGet g 2, ""))) <|>
  (match rxSearch? lintPat8Search line, rxMatch? lintPat8Match line with
   | some g, some _ => some (grpGet g 1, "")
   | _, _ => none) <|>
  ((rxMatch? lintPat9a line).map (fun g => ("shellcheck", grpGet g 1))) <|>
  ((rxMatch? lintPat9b line).map (fun g => (grpGet g 4, grpGet g 1))) <|>
  ((rxMatch? lintPat10 line).map (fun g => (grpGet g 3, grpGet g 1))) <|>
  ((rxMatch? lintPat11 line).map (fun g => (grpGet g 3, grpGet g 1)))

/-- ESLint file-header detection (line 51): `^/?[\w./_-]+\.\w+$` -/
def lintHeaderRe : Rx :=
  rxSeq [.opt (.ch '/'),
         .plus (.cls (fun c => isWordChar c || c = '.' || c = '/' || c = '-')) false,
         .ch '.', .plus .word false, .eos]

/-- `:\d+` (searched; line 51). -/
def colonDigitRe : Rx := rxSeq [.ch ':', .digit]

/-- `^\s*\d+\s+(error|warning|problem)` (line 62). -/
def lintSummary1 : Rx :=
  rxSeq [.star .space false, .plus .digit false, .plus .space false,
         .alt (.strLit "error") (.alt (.strLit "warning") (.strLit "problem"))]

/-- `(Found|Total|All checks)\s+\d+` (searched; line 63). -/
def lintSummary2 : Rx :=
  rxSeq [.alt (.strLit "Found") (.alt (.strLit "Total") (.strLit "All checks")),
         .plus .space false, .plus .digit false]

/-- `^(error|warning):` applied to the lowered line (line 64). -/
def lintSummary3 : Rx :=
  rxSeq [.alt (.strLit "error") (.strLit "warning"), .ch ':']

/-- `^\s*✖\s+\d+\s+problem` (line 65). -/
def lintSummary4 : Rx :=
  rxSeq [.star .space false, .ch '✖', .plus .space false, .plus .digit false,
         .plus .space false, .strLit "problem"]

/-- `\b(error|fatal|cannot|failed)\b` with re.I (searched; line 101). -/
def lintImportantRe : Rx :=
  rxSeq [.wb,
         .alt (.strLitI "error")
           (.alt (.strLitI "fatal") (.alt (.strLitI "cannot") (.strLitI "failed"))),
         .wb]

/-- `violations_by_rule[rule].append(stripped)` on an insertion-ordered
association list (the defaultdict keeps first-insertion key order). -/
def appendRuleViolation (m : List (String × List String)) (k v : String) :
    List (String × List String) :=
  match m with
  | [] => [(k, [v])]
  | (k', vs) :: rest =>
      if k' = k then (k', vs ++ [v]) :: rest
      else (k', vs) :: appendRuleViolation rest k v

/-- `files_by_rule[rule].add(filepath)`; the set is a duplicate-free
list, whose length is the set's cardinality. -/
def addRuleFile (m : List (String × List String)) (k f : String) :
    List (String × List String) :=
  match m with
  | [] => [(k, [f])]
  | (k', fs) :: rest =>
      if k' = k then (k', if fs.contains f then fs else fs ++ [f]) :: rest
      else (k', fs) :: addRuleFile rest k f

structure LintScan where
  byRule : List (String × List String)
  filesByRule : List (String × List String)
  ungrouped : List String
  summary : List String
  currentFile : String

/-- The classification loop of LintOutputProcessor.process (lines
45-69). -/
def lintScanStep (st : LintScan) (line : String) : LintScan :=
  let stripped := pyStrip line
  if stripped = "" then st
  else if rxTestMatch lintHeaderRe stripped && !rxTestSearch colonDigitRe stripped then
    { st with currentFile := stripped }
  else
    match lintParseViolation stripped st.currentFile with
    | some (rule, filepath) =>
        { st with
          byRule := appendRuleViolation st.byRule rule stripped,
          filesByRule :=
            if filepath ≠ "" then addRuleFile st.filesByRule rule filepath
            else st.filesByRule }
    | none =>
        if rxTestMatch lintSummary1 stripped || rxTestSearch lintSummary2 stripped ||
           rxTestMatch lintSummary3 (pyLower stripped) ||
           rxTestMatch lintSummary4 stripped then
          { st with summary := st.summary ++ [stripped] }
        else { st with ungrouped := st.ungrouped ++ [stripped] }

def lintScan (lines : List String) : LintScan :=
  lines.foldl lintScanStep ⟨[], [], [], [], ""⟩

def lookupRule (m : List (String × List String)) (k : String) : Option (List String) :=
  (m.find? (fun p => decide (p.1 = k))).map (fun p => p.2)

/-- defaultdict read: missing rules give the empty set. -/
def lookupRuleD (m : List (String × List String)) (k : String) : List String :=
  (lookupRule m k).getD []

/-- Insertion step of a stable sort by descending violation count,
matching Python `sorted(items, key=lambda x: -len(x[1]))`. -/
def insertByCountDesc (x : String × List String) :
    List (String × List String) → List (String × List String)
  | [] => [x]
  | y :: rest =>
      if y.2.length ≥ x.2.length then y :: insertByCountDesc x rest
      else x :: y :: rest

def sortRulesDesc (l : List (String × List String)) : List (String × List String) :=
  l.foldl (fun acc x => insertByCountDesc x acc) []

/-- Per-rule emission of LintOutputProcessor.process (lines 82-94). -/
def lintEmitRule (exampleCount groupThreshold : Nat) (fileCount : Nat)
    (rule : String) (violations : List String) : List String :=
  let count := violations.length
  if count > groupThreshold then
    ["  " ++ rule ++ ": " ++ toString count ++ " occurrences" ++
      (if fileCount > 1 then " in " ++ toString fileCount ++ " files" else "")]
    ++ (violations.take exampleCount).map (fun v => "    " ++ v)
    ++ (if count > exampleCount then
          ["    ... (" ++ toString (count - exampleCount) ++ " more)"]
        else [])
  else violations.map (fun v => "  " ++ v)

def lintImportantUngrouped (ung : List String) : List String :=
  ung.filter (fun l => rxTestSearch lintImportantRe l)

/-- The result lines LintOutputProcessor.process joins (lines 77-106):
header, grouped/ungrouped rule blocks in stable descending count order,
summary lines, and the first five important ungrouped lines. -/
def lintResultLines (exampleCount groupThreshold : Nat) (sc : LintScan) :
    List String :=
  ((toString ((sc.byRule.map (fun rv => rv.2.length)).sum) ++ " issues across " ++
      toString sc.byRule.length ++ " rules:") ::
    (sortRulesDesc sc.byRule).flatMap
      (fun rv => lintEmitRule exampleCount groupThreshold
        (lookupRuleD sc.filesByRule rv.1).length rv.1 rv.2))
  ++ sc.summary
  ++ (lintImportantUngrouped sc.ungrouped).take 5

/-- LintOutputProcessor.process (lines 33-106), with the two config
thresholds as parameters (defaults 2 and 3). -/
def lintProcess (exampleCount groupThreshold : Nat) (output : String) : String :=
  if pyStrip output = "" then output
  else
    let sc := lintScan (pySplitLines output)
    if sc.byRule.isEmpty then output
    else joinLines (lintResultLines exampleCount groupThreshold sc)

/-! ## src/processors/git.py — _process_diff (lines 168-242)

The context-window reducing loop (lines 181-242); the name-only /
name-status / stat-only dispatch preceding it (lines 171-179) selects
other strategies and is not part of the claims about the reducer. -/

def isDiffGit (l : String) : Bool := pyStartsWith "diff --git" l

def isMetaLine (l : String) : Bool :=
  pyStartsWith "index " l || pyStartsWith "---" l || pyStartsWith "+++" l

def isHunkHeader (l : String) : Bool := pyStartsWith "@@" l

def isChangeLine (l : String) : Bool := pyStartsWith "+" l || pyStartsWith "-" l

def isCtxLine (l : String) : Bool := pyStartsWith " " l

/-- `re.match(r"^\s*\d+ files? changed", line)`, directly: optional
whitespace, at least one digit, " file", optional 's', " changed". -/
def isStatLine (l : String) : Bool :=
  let r1 := l.data.dropWhile isPySpace
  let ds := r1.takeWhile Char.isDigit
  let r2 := r1.dropWhile Char.isDigit
  !ds.isEmpty &&
    (" file".data.isPrefixOf r2 &&
      (let r3 := r2.drop 5
       (" changed".data.isPrefixOf r3 ||
        (match r3 with
         | 's' :: r4 => " changed".data.isPrefixOf r4
         | _ => false))))

structure DiffState where
  result : List String
  hunkLineCount : Nat
  hunkTruncated : Bool
  statLine : String
  leadingBuffer : List String
  trailingRemaining : Nat

def diffTruncMsg (maxHunk : Nat) : String :=
  "  ... (truncated after " ++ toString maxHunk ++ " lines)"

/-- One iteration of the _process_diff loop (lines 192-236), with the
source's elif order.  The source's local `hunk_line_count + 1` is
inlined; extending with `leading_buffer[-max_context:]` of an empty
buffer is a no-op, so the source's emptiness guard is folded into
`pyLastSlice`. -/
def diffStep (maxHunk maxContext : Nat) (st : DiffState) (line : String) : DiffState :=
  if isDiffGit line then
    { result := st.result ++ (if st.hunkTruncated then [diffTruncMsg maxHunk] else [])
        ++ [line],
      hunkLineCount := 0, hunkTruncated := false, statLine := st.statLine,
      leadingBuffer := [], trailingRemaining := 0 }
  else if isMetaLine line then st
  else if isHunkHeader line then
    { result := st.result ++ (if st.hunkTruncated then [diffTruncMsg maxHunk] else [])
        ++ [line],
      hunkLineCount := 0, hunkTruncated := false, statLine := st.statLine,
      leadingBuffer := [], trailingRemaining := 0 }
  else if isChangeLine line then
    if st.hunkLineCount + 1 ≤ maxHunk then
      { result := st.result ++ pyLastSlice maxContext st.leadingBuffer ++ [line],
        hunkLineCount := st.hunkLineCount + 1, hunkTruncated := st.hunkTruncated,
        statLine := st.statLine, leadingBuffer := [],
        trailingRemaining := maxContext }
    else { st with hunkLineCount := st.hunkLineCount + 1, hunkTruncated := true }
  else if isCtxLine line then
    if st.hunkLineCount + 1 ≤ maxHunk then
      if st.trailingRemaining > 0 then
        { st with result := st.result ++ [line],
                  hunkLineCount := st.hunkLineCount + 1,
                  trailingRemaining := st.trailingRemaining - 1 }
      else
        { st with hunkLineCount := st.hunkLineCount + 1,
                  leadingBuffer := st.leadingBuffer ++ [line] }
    else { st with hunkLineCount := st.hunkLineCount + 1, hunkTruncated := true }
  else if isStatLine line then { st with statLine := line }
  else st

/-- The reducing loop of GitProcessor._process_diff (lines 181-242):
the line scan followed by the final truncation notice and stat line. -/
def diffReduce (maxHunk maxContext : Nat) (lines : List String) : List String :=
  let st := lines.foldl (diffStep maxHunk maxContext) ⟨[], 0, false, "", [], 0⟩
  st.result ++ (if st.hunkTruncated then [diffTruncMsg maxHunk] else [])
    ++ (if st.statLine ≠ "" then [st.statLine] else [])

/-- "No hunk exceeds the per-hunk line cap": the hunk line counter
(which counts changed and context lines, resetting at file and hunk
markers) never exceeds maxHunk. -/
def diffCapOK (maxHunk : Nat) : Nat → List String → Bool
  | _, [] => true
  | c, l :: rest =>
      if isDiffGit l then diffCapOK maxHunk 0 rest
      else if isMetaLine l then diffCapOK maxHunk c rest
      else if isHunkHeader l then diffCapOK maxHunk 0 rest
      else if isChangeLine l || isCtxLine l then
        decide (c + 1 ≤ maxHunk) && diffCapOK maxHunk (c + 1) rest
      else diffCapOK maxHunk c rest

def IsMarker (l : String) : Bool := isDiffGit l || isHunkHeader l

/-- A context line (string) is within the context window of some change:
some occurrence of it has a changed line at most maxContext context
lines away on one side, with no file/hunk marker in between. -/
def NearCtx (maxContext : Nat) (lines : List String) (s : String) : Prop :=
  (∃ p₁ mid c p₂, lines = p₁ ++ s :: (mid ++ c :: p₂) ∧
     isChangeLine c = true ∧ isMetaLine c = false ∧
     (∀ l ∈ mid, IsMarker l = false) ∧ (mid.filter isCtxLine).length < maxContext) ∨
  (∃ p₁ c mid p₂, lines = p₁ ++ c :: (mid ++ s :: p₂) ∧
     isChangeLine c = true ∧ isMetaLine c = false ∧
     (∀ l ∈ mid, IsMarker l = false) ∧ (mid.filter isCtxLine).length < maxContext)

/-- Invariant of the diff scan after processing `prefixDone` (the lines
consumed so far, with `lines = prefixDone ++ rest`), under the per-hunk
cap: emitted context lines are near a change, the leading buffer is
exactly the context lines of a marker-free, change-free tail of the
consumed prefix, a positive trailing allowance certifies a recent
change, the stat line is not a context line, and no truncation has
happened. -/
def DiffInv (maxContext : Nat) (lines prefixDone : List String) (st : DiffState) : Prop :=
  (∀ s, isCtxLine s = true → s ∈ st.result → NearCtx maxContext lines s) ∧
  (∃ p₁ p₂, prefixDone = p₁ ++ p₂ ∧
     (∀ l ∈ p₂, IsMarker l = false ∧ (isChangeLine l = true → isMetaLine l = true)) ∧
     st.leadingBuffer = p₂.filter isCtxLine) ∧
  (st.trailingRemaining > 0 →
     st.trailingRemaining ≤ maxContext ∧ st.leadingBuffer = [] ∧
     ∃ p₁ c p₂, prefixDone = p₁ ++ c :: p₂ ∧ isChangeLine c = true ∧
       isMetaLine c = false ∧ (∀ l ∈ p₂, IsMarker l = false) ∧
       (p₂.filter isCtxLine).length = maxContext - st.trailingRemaining) ∧
  isCtxLine st.statLine = false ∧
  st.hunkTruncated = false

/-! # Theorems -/

/-- src/engine.py line 43: the engine's gain is the claimed formula on
rationals (division by a zero length yields 0 on both sides). -/
theorem gainQ_eq_formula (L R : Nat) : gainQ L R = ((L : ℚ) - (R : ℚ)) / (L : ℚ) := by
  unfold gainQ
  split
  · rfl
  · rename_i h
    have hL : L = 0 := by omega
    subst hL
    simp

theorem gainQ_self (L : Nat) : gainQ L L = 0 := by
  rw [gainQ_eq_formula, sub_self, zero_div]

/-- Every run of compress either passes the output through unchanged
with wasCompressed = false, or returns a compressed text meeting the
ratio with wasCompressed = true. -/
theorem compress_spec (cfg : EngineConfig) (specialized : List Proc)
    (generic : GenericProc) (command output : String) :
    ((compress cfg specialized generic command output).2.2 = false ∧
      (compress cfg specialized generic command output).1 = output) ∨
    ((compress cfg specialized generic command output).2.2 = true ∧
      cfg.minCompressionRatio ≤
        gainQ output.length (compress cfg specialized generic command output).1.length) := by
  unfold compress
  split
  · exact Or.inl ⟨rfl, rfl⟩
  · split
    · exact Or.inl ⟨rfl, rfl⟩
    · split
      · dsimp only
        split
        · rename_i h
          exact Or.inr ⟨rfl, h⟩
        · split
          · rename_i h2
            exact Or.inr ⟨rfl, h2⟩
          · exact Or.inl ⟨rfl, rfl⟩
      · split
        · dsimp only
          split
          · rename_i h
            exact Or.inr ⟨rfl, h⟩
          · exact Or.inl ⟨rfl, rfl⟩
        · exact Or.inl ⟨rfl, rfl⟩

/-- C1: when the engine selects a non-fallback processor whose cleaned
result fails the minimum-ratio gate, compress runs the full generic
fallback on the original output and cleans that result; if the fallback
result meets the ratio it is returned labeled "generic" with
wasCompressed = true, otherwise the original output is returned
unchanged with wasCompressed = false. -/
theorem c1_engine_fallback_protocol
    (cfg : EngineConfig) (specialized : List Proc) (generic : GenericProc)
    (command output : String) (p : Proc)
    (hEnabled : cfg.enabled = true)
    (hLen : ¬ ((output.length : Int) < cfg.minInputLength))
    (hSel : specialized.find? (fun q => q.canHandle command) = some p)
    (hUnder : gainQ output.length
        (generic.clean (p.process command output)).length < cfg.minCompressionRatio) :
    (cfg.minCompressionRatio ≤
        gainQ output.length (generic.clean (generic.process command output)).length →
      compress cfg specialized generic command output =
        (generic.clean (generic.process command output), "generic", true)) ∧
    (gainQ output.length (generic.clean (generic.process command output)).length <
        cfg.minCompressionRatio →
      compress cfg specialized generic command output = (output, p.name, false)) := by
  constructor
  · intro h
    simp [compress, hEnabled, hSel, hLen, not_le.mpr hUnder, h]
  · intro h
    simp [compress, hEnabled, hSel, hLen, not_le.mpr hUnder, not_le.mpr h]

theorem c1_witness :
    gainQ "0123456789".length
        ((GenericProc.mk ⟨"generic-proc", fun _ => true, fun _ _ => "tiny"⟩ id).clean
          ((Proc.mk "spec" (fun _ => true) (fun _ o => o)).process "cmd" "0123456789")).length
      < (1 : ℚ) / 10 ∧
    compress ⟨true, 5, 1/10⟩ [⟨"spec", fun _ => true, fun _ o => o⟩]
        ⟨⟨"generic-proc", fun _ => true, fun _ _ => "tiny"⟩, id⟩ "cmd" "0123456789"
      = ("tiny", "generic", true) := by
  have hUnder : gainQ 10 10 < (1 : ℚ) / 10 := by norm_num [gainQ]
  have hMeets : (1 : ℚ) / 10 ≤ gainQ 10 4 := by norm_num [gainQ]
  refine ⟨hUnder, ?_⟩
  exact (c1_engine_fallback_protocol ⟨true, 5, 1/10⟩
    [⟨"spec", fun _ => true, fun _ o => o⟩]
    ⟨⟨"generic-proc", fun _ => true, fun _ _ => "tiny"⟩, id⟩ "cmd" "0123456789"
    ⟨"spec", fun _ => true, fun _ o => o⟩ rfl (by decide) rfl hUnder).1 hMeets

/-- C2: wasCompressed is true iff the returned text satisfies
(len(original) - len(result)) / len(original) ≥ minCompressionRatio,
for any positive configured ratio (default 0.10). -/
theorem c2_ratio_gate (cfg : EngineConfig) (specialized : List Proc)
    (generic : GenericProc) (command output : String)
    (hRatio : 0 < cfg.minCompressionRatio) :
    ((compress cfg specialized generic command output).2.2 = true ↔
      cfg.minCompressionRatio ≤
        ((output.length : ℚ) -
          ((compress cfg specialized generic command output).1.length : ℚ)) /
          (output.length : ℚ)) := by
  rcases compress_spec cfg specialized generic command output with ⟨hb, ht⟩ | ⟨hb, hg⟩
  · rw [hb, ht]
    simp only [Bool.false_eq_true, false_iff, sub_self, zero_div]
    exact not_le.mpr hRatio
  · rw [hb]
    rw [gainQ_eq_formula] at hg
    simp only [true_iff]
    exact hg

theorem c2_witness :
    (0 : ℚ) < (1 : ℚ) / 10 ∧
    ((compress ⟨true, 5, 1/10⟩ [] ⟨⟨"generic-proc", fun _ => false, fun _ o => o⟩, id⟩
        "cmd" "0123456789").2.2 = true ↔
      (1 : ℚ) / 10 ≤
        (("0123456789".length : ℚ) -
          ((compress ⟨true, 5, 1/10⟩ [] ⟨⟨"generic-proc", fun _ => false, fun _ o => o⟩, id⟩
            "cmd" "0123456789").1.length : ℚ)) / ("0123456789".length : ℚ)) :=
  ⟨by norm_num,
   c2_ratio_gate ⟨true, 5, 1/10⟩ [] ⟨⟨"generic-proc", fun _ => false, fun _ o => o⟩, id⟩
     "cmd" "0123456789" (by norm_num)⟩

/-- C3: the claim says a processor's process never raises; but
GitProcessor._process_log evaluates `line.split()[1]` on every line
starting "commit ", which raises IndexError on the line "commit "
(trailing space, no hash).  `none` is the model of the raise. -/
theorem c3_process_log_raises : processLog 20 "git log" "commit " = none := rfl

/-- C10: a captured failure block of at most max_traceback_lines lines
is kept in full; a longer one is replaced by exactly its first
floor(max/2) lines, one truncation marker naming the omitted count, and
its last ceil(max/2) lines. -/
theorem c10_truncate_traceback (maxLines : Nat) (block : List String)
    (hpos : 1 ≤ maxLines) :
    (block.length ≤ maxLines → truncateTraceback maxLines block = block) ∧
    (maxLines < block.length →
      truncateTraceback maxLines block =
        block.take (maxLines / 2)
          ++ ["    ... (" ++ toString (block.length - maxLines) ++
                " traceback lines truncated)"]
          ++ block.drop (block.length - (maxLines - maxLines / 2))) := by
  constructor
  · intro h
    simp [truncateTraceback, h]
  · intro h
    have hnle : ¬ block.length ≤ maxLines := by omega
    have hkt : maxLines - maxLines / 2 ≠ 0 := by omega
    simp only [truncateTraceback, if_neg hnle, pyLastSlice, if_neg hkt]
    rw [show block.length - maxLines / 2 - (maxLines - maxLines / 2)
          = block.length - maxLines from by omega]

theorem c10_witness :
    1 ≤ 30 ∧
    truncateTraceback 30 (List.replicate 31 "x")
      = List.replicate 15 "x" ++ ["    ... (1 traceback lines truncated)"]
        ++ List.replicate 15 "x" := by
  refine ⟨by decide, ?_⟩
  have h := (c10_truncate_traceback 30 (List.replicate 31 "x") (by decide)).2 (by decide)
  rw [h]
  decide

/-! ### C9 — configuration loading -/

theorem lookup_map_update (cfg : List (String × ConfigVal)) (k : String) (v : ConfigVal)
    (h : cfg.any (fun p => p.1 = k) = true) :
    lookupCfg (cfg.map (fun p => if p.1 = k then (k, v) else p)) k = some v := by
  induction cfg with
  | nil => simp at h
  | cons p rest ih =>
      by_cases hp : p.1 = k
      · have hrw : (if p.1 = k then (k, v) else p) = (k, v) := if_pos hp
        rw [List.map_cons, hrw]
        simp [lookupCfg]
      · simp only [List.any_cons, Bool.or_eq_true, decide_eq_true_eq] at h
        rcases h with h | h
        · exact absurd h hp
        · simp only [List.map_cons, if_neg hp]
          rcases p with ⟨pk, pv⟩
          simp only [lookupCfg, if_neg hp]
          exact ih h

theorem lookup_append_single (cfg : List (String × ConfigVal)) (k : String) (v : ConfigVal)
    (h : cfg.any (fun p => p.1 = k) = false) :
    lookupCfg (cfg ++ [(k, v)]) k = some v := by
  induction cfg with
  | nil => simp [lookupCfg]
  | cons p rest ih =>
      simp only [List.any_cons, Bool.or_eq_false_iff, decide_eq_false_iff_not] at h
      rcases p with ⟨pk, pv⟩
      simp only [List.cons_append, lookupCfg, if_neg h.1]
      exact ih h.2

theorem lookupCfg_updateAssoc (cfg : List (String × ConfigVal)) (k : String) (v : ConfigVal) :
    lookupCfg (updateAssoc cfg k v) k = some v := by
  unfold updateAssoc
  split
  · exact lookup_map_update cfg k v (by assumption)
  · rename_i h
    exact lookup_append_single cfg k v (by rw [Bool.eq_false_iff]; exact h)

theorem foldl_envOverlay_skip (env : String → Option String)
    (L : List (String × ConfigVal)) (cfg : List (String × ConfigVal))
    (h : ∀ kd ∈ L, env ("TOKEN_SAVER_" ++ pyUpper kd.1) = none) :
    L.foldl (envOverlayStep env) cfg = cfg := by
  induction L generalizing cfg with
  | nil => rfl
  | cons kd rest ih =>
      rw [List.foldl_cons,
          show envOverlayStep env cfg kd = cfg from by
            unfold envOverlayStep; rw [h kd (List.mem_cons_self kd rest)],
          ih cfg (fun x hx => h x (List.mem_cons_of_mem kd hx))]

/-- C9 (amended): configuration loading never fails on a numeric
override, but it does not clamp: any value that parses as an int —
including an out-of-range negative cap — is stored verbatim, and a
value that does not parse is ignored, keeping the default
(demonstrated for the "max_diff_context_lines" cap, default 3). -/
theorem c9_config_no_clamp (v : String) :
    (∀ n : Int, pyParseInt v = some n →
      lookupCfg (loadConfig none (envSingle "TOKEN_SAVER_MAX_DIFF_CONTEXT_LINES" v))
        "max_diff_context_lines" = some (.i n)) ∧
    (pyParseInt v = none →
      lookupCfg (loadConfig none (envSingle "TOKEN_SAVER_MAX_DIFF_CONTEXT_LINES" v))
        "max_diff_context_lines" = some (.i 3)) := by
  have hA : ∀ kd ∈ defaultsBeforeMDC,
      envSingle "TOKEN_SAVER_MAX_DIFF_CONTEXT_LINES" v ("TOKEN_SAVER_" ++ pyUpper kd.1) = none := by
    have hne : ∀ kd ∈ defaultsBeforeMDC,
        ("TOKEN_SAVER_" ++ pyUpper kd.1) ≠ "TOKEN_SAVER_MAX_DIFF_CONTEXT_LINES" := by decide
    intro kd hkd
    simp [envSingle, hne kd hkd]
  have hB : ∀ kd ∈ defaultsAfterMDC,
      envSingle "TOKEN_SAVER_MAX_DIFF_CONTEXT_LINES" v ("TOKEN_SAVER_" ++ pyUpper kd.1) = none := by
    have hne : ∀ kd ∈ defaultsAfterMDC,
        ("TOKEN_SAVER_" ++ pyUpper kd.1) ≠ "TOKEN_SAVER_MAX_DIFF_CONTEXT_LINES" := by decide
    intro kd hkd
    simp [envSingle, hne kd hkd]
  have hstep : envOverlayStep (envSingle "TOKEN_SAVER_MAX_DIFF_CONTEXT_LINES" v)
      configDefaults ("max_diff_context_lines", ConfigVal.i 3)
      = (match pyParseInt v with
         | some n => updateAssoc configDefaults "max_diff_context_lines" (.i n)
         | none => configDefaults) := by
    unfold envOverlayStep
    rw [show envSingle "TOKEN_SAVER_MAX_DIFF_CONTEXT_LINES" v
          ("TOKEN_SAVER_" ++ pyUpper ("max_diff_context_lines", ConfigVal.i 3).1)
        = some v from by
      rw [show ("TOKEN_SAVER_" ++ pyUpper ("max_diff_context_lines", ConfigVal.i 3).1)
            = "TOKEN_SAVER_MAX_DIFF_CONTEXT_LINES" from rfl]
      simp [envSingle]]
  have hmain : loadConfig none (envSingle "TOKEN_SAVER_MAX_DIFF_CONTEXT_LINES" v)
      = (match pyParseInt v with
         | some n => updateAssoc configDefaults "max_diff_context_lines" (.i n)
         | none => configDefaults) := by
    calc loadConfig none (envSingle "TOKEN_SAVER_MAX_DIFF_CONTEXT_LINES" v)
        = List.foldl (envOverlayStep (envSingle "TOKEN_SAVER_MAX_DIFF_CONTEXT_LINES" v))
            configDefaults
            (defaultsBeforeMDC ++ ("max_diff_context_lines", ConfigVal.i 3) :: defaultsAfterMDC) :=
          rfl
      _ = List.foldl (envOverlayStep (envSingle "TOKEN_SAVER_MAX_DIFF_CONTEXT_LINES" v))
            (List.foldl (envOverlayStep (envSingle "TOKEN_SAVER_MAX_DIFF_CONTEXT_LINES" v))
              configDefaults defaultsBeforeMDC)
            (("max_diff_context_lines", ConfigVal.i 3) :: defaultsAfterMDC) := by
          rw [List.foldl_append]
      _ = List.foldl (envOverlayStep (envSingle "TOKEN_SAVER_MAX_DIFF_CONTEXT_LINES" v))
            (envOverlayStep (envSingle "TOKEN_SAVER_MAX_DIFF_CONTEXT_LINES" v)
              configDefaults ("max_diff_context_lines", ConfigVal.i 3))
            defaultsAfterMDC := by
          rw [foldl_envOverlay_skip _ defaultsBeforeMDC configDefaults hA, List.foldl_cons]
      _ = (match pyParseInt v with
           | some n => updateAssoc configDefaults "max_diff_context_lines" (.i n)
           | none => configDefaults) := by
          rw [hstep]
          cases pyParseInt v with
          | some n => exact foldl_envOverlay_skip _ defaultsAfterMDC _ hB
          | none => exact foldl_envOverlay_skip _ defaultsAfterMDC _ hB
  constructor
  · intro n hn
    rw [hmain, hn]
    exact lookupCfg_updateAssoc configDefaults "max_diff_context_lines" (.i n)
  · intro hn
    rw [hmain, hn]
    rfl

/-- C9, counterexample to the claim as stated: supplying the
out-of-range value -5 for the context-line cap stores -5 itself; the
loader does not clamp it to a safe minimum. -/
theorem c9_counterexample :
    lookupCfg (loadConfig none (envSingle "TOKEN_SAVER_MAX_DIFF_CONTEXT_LINES" "-5"))
      "max_diff_context_lines" = some (.i (-5)) := by
  decide

theorem c9_witness :
    pyParseInt "7" = some 7 ∧
    lookupCfg (loadConfig none (envSingle "TOKEN_SAVER_MAX_DIFF_CONTEXT_LINES" "7"))
      "max_diff_context_lines" = some (.i 7) :=
  ⟨rfl, (c9_config_no_clamp "7").1 7 rfl⟩

/-! ### C5 — important-key preservation in the structured-value summarizer -/

theorem compress_scalar_preserved (v : Json) (h : isScalarPreserved v = true)
    (d m : Nat) : compressJsonValue v d m = v := by
  cases v with
  | obj kvs => simp [isScalarPreserved] at h
  | arr xs => simp [isScalarPreserved] at h
  | str s =>
      have hlen : ¬ s.length > 200 := by
        simp only [isScalarPreserved, decide_eq_true_eq] at h
        omega
      unfold compressJsonValue
      split <;> simp [hlen]
  | int n => unfold compressJsonValue; split <;> rfl
  | bool b => unfold compressJsonValue; split <;> rfl
  | null => unfold compressJsonValue; split <;> rfl

theorem lookupField_compressJsonFields (kvs : List (String × Json)) (d m : Nat)
    (k : String) :
    lookupField (compressJsonFields kvs d m) k =
      (lookupField kvs k).map
        (fun v => if isImportantKey k then compressJsonValue v d (m + 1)
                  else compressJsonValue v (d + 1) m) := by
  induction kvs with
  | nil => simp [compressJsonFields, lookupField]
  | cons kv rest ih =>
      rcases kv with ⟨k', v⟩
      by_cases hk : k' = k
      · subst hk
        simp [compressJsonFields, lookupField]
      · simp [compressJsonFields, lookupField, hk, ih]

/-- C5 (amended): an important ("id"/"status"/"error"/…​) field's scalar
value survives summarization provided the object holding it is reached
within the depth budget: every object on the key path must be met at
depth < maxDepth, where an important ancestor key keeps the depth and
adds one level of allowance while any other ancestor key costs one
level (an "id" nested under maxDepth non-important keys is collapsed —
see the counterexample).  Moreover the dict branch recurses exactly as
the claim says: important keys at the same depth with maxDepth + 1,
all other keys at depth + 1. -/
theorem c5_important_key_preservation :
    (∀ (root : Json) (path : List String) (d m : Nat)
       (kvs : List (String × Json)) (k : String) (v : Json),
      walkPath root path = some (.obj kvs) →
      lookupField kvs k = some v →
      isImportantKey k = true →
      isScalarPreserved v = true →
      pathFits path d m = true →
      ∃ kvs', walkPath (compressJsonValue root d m) path = some (.obj kvs') ∧
        lookupField kvs' k = some v) ∧
    (∀ (kvs : List (String × Json)) (d m : Nat), d < m →
      compressJsonValue (.obj kvs) d m = .obj (compressJsonFields kvs d m)) ∧
    (∀ (kvs : List (String × Json)) (d m : Nat) (k : String) (v : Json),
      lookupField kvs k = some v →
      lookupField (compressJsonFields kvs d m) k =
        some (if isImportantKey k then compressJsonValue v d (m + 1)
              else compressJsonValue v (d + 1) m)) := by
  have hobj : ∀ (kvs : List (String × Json)) (d m : Nat), d < m →
      compressJsonValue (.obj kvs) d m = .obj (compressJsonFields kvs d m) := by
    intro kvs d m hdm
    unfold compressJsonValue
    rw [if_neg (by omega)]
  refine ⟨?_, hobj, ?_⟩
  · intro root path
    induction path generalizing root with
    | nil =>
        intro d m kvs k v hwalk hlook himp hscal hfits
        simp only [walkPath, Option.some_inj] at hwalk
        subst hwalk
        simp only [pathFits, decide_eq_true_eq] at hfits
        refine ⟨compressJsonFields kvs d m, ?_, ?_⟩
        · rw [hobj kvs d m hfits]
          rfl
        · rw [lookupField_compressJsonFields, hlook]
          by_cases h : isImportantKey k <;>
            simp [h, compress_scalar_preserved v hscal]
    | cons k₀ rest ih =>
        intro d m kvs k v hwalk hlook himp hscal hfits
        cases root with
        | obj kvs₀ =>
            simp only [walkPath] at hwalk
            cases hw : lookupField kvs₀ k₀ with
            | none => rw [hw] at hwalk; exact absurd hwalk (by simp)
            | some w =>
                rw [hw] at hwalk
                have hwalk' : walkPath w rest = some (.obj kvs) := hwalk
                simp only [pathFits, Bool.and_eq_true, decide_eq_true_eq] at hfits
                obtain ⟨hdm, hrest⟩ := hfits
                rw [hobj kvs₀ d m hdm]
                by_cases himp₀ : isImportantKey k₀
                · rw [if_pos himp₀] at hrest
                  obtain ⟨kvs', h1, h2⟩ := ih w d (m + 1) kvs k v hwalk' hlook himp hscal hrest
                  refine ⟨kvs', ?_, h2⟩
                  have hw' : lookupField (compressJsonFields kvs₀ d m) k₀
                      = some (compressJsonValue w d (m + 1)) := by
                    rw [lookupField_compressJsonFields, hw]
                    simp [if_pos himp₀]
                  simp only [walkPath, hw']
                  exact h1
                · rw [if_neg himp₀] at hrest
                  obtain ⟨kvs', h1, h2⟩ := ih w (d + 1) m kvs k v hwalk' hlook himp hscal hrest
                  refine ⟨kvs', ?_, h2⟩
                  have hw' : lookupField (compressJsonFields kvs₀ d m) k₀
                      = some (compressJsonValue w (d + 1) m) := by
                    rw [lookupField_compressJsonFields, hw]
                    simp [if_neg himp₀]
                  simp only [walkPath, hw']
                  exact h1
        | arr xs => simp [walkPath] at hwalk
        | str s => simp [walkPath] at hwalk
        | int n => simp [walkPath] at hwalk
        | bool b => simp [walkPath] at hwalk
        | null => simp [walkPath] at hwalk
  · intro kvs d m k v hlook
    rw [lookupField_compressJsonFields, hlook]
    rfl

/-- C5, counterexample to the claim as stated: an "id" field nested
under four non-important keys is swallowed by the depth-4 cutoff — its
value "X" does not occur anywhere in the summarized output. -/
theorem c5_counterexample :
    compressJsonValue
        (.obj [("a", .obj [("b", .obj [("c", .obj [("d", .obj [("id", .str "X")])])])])]) 0 4
      = .obj [("a", .obj [("b", .obj [("c",
          .obj [("d", .str "\x7b... 1 keys\x7d")])])])] ∧
    jsonMentionsStr "X"
        (compressJsonValue
          (.obj [("a", .obj [("b", .obj [("c", .obj [("d", .obj [("id", .str "X")])])])])]) 0 4)
      = false :=
  ⟨rfl, rfl⟩

theorem c5_witness :
    walkPath (.obj [("a", .obj [("id", .str "X")])]) ["a"]
        = some (.obj [("id", .str "X")]) ∧
    isImportantKey "id" = true ∧
    pathFits ["a"] 0 4 = true ∧
    (∃ kvs', walkPath (compressJsonValue (.obj [("a", .obj [("id", .str "X")])]) 0 4) ["a"]
        = some (.obj kvs') ∧ lookupField kvs' "id" = some (.str "X")) :=
  ⟨rfl, rfl, rfl,
   c5_important_key_preservation.1 (.obj [("a", .obj [("id", .str "X")])]) ["a"] 0 4
     [("id", .str "X")] "id" (.str "X") rfl rfl rfl rfl rfl⟩

/-! ### C6 — array handling in the structured-value summarizers -/

theorem compressJsonElems_eq_map (xs : List Json) (d m : Nat) :
    compressJsonElems xs d m = xs.map (fun x => compressJsonValue x d m) := by
  induction xs with
  | nil => rfl
  | cons x rest ih => simp [compressJsonElems, ih]

theorem networkSummarizeElems_eq_map (xs : List Json) (d m : Nat) :
    networkSummarizeElems xs d m = xs.map (fun x => networkSummarizeJson x (d + 1) m) := by
  induction xs with
  | nil => rfl
  | cons x rest ih => simp [networkSummarizeElems, ih]

theorem fileSummarizeElems_eq_map (xs : List Json) (d m : Nat) :
    fileSummarizeElems xs d m = xs.map (fun x => fileSummarizeJsonValue x (d + 1) m) := by
  induction xs with
  | nil => rfl
  | cons x rest ih => simp [fileSummarizeElems, ih]

/-- C6 (amended): the three structured-value summarizers treat arrays
differently.  The cloud-CLI one matches the claim: traversal does not
increase the depth, arrays of length ≤ 5 are summarized in full and
longer ones keep the first 3 elements plus a remainder count.  The
network and file-content renderers recurse into array elements at
depth + 1; above their thresholds (2 resp. 3) the network one keeps
only the first element and the file-content one the first three, and
both append the total item count rather than the remainder. -/
theorem c6_array_summarization :
    (∀ (xs : List Json) (d m : Nat), d < m → xs.length ≤ 5 →
      compressJsonValue (.arr xs) d m
        = .arr (xs.map (fun x => compressJsonValue x d m))) ∧
    (∀ (xs : List Json) (d m : Nat), d < m → 5 < xs.length →
      compressJsonValue (.arr xs) d m
        = .arr ((xs.map (fun x => compressJsonValue x d m)).take 3
            ++ [.str ("... (" ++ toString (xs.length - 3) ++ " more items)")])) ∧
    (∀ (x : Json) (rest : List Json) (d m : Nat), rest.length + 1 ≤ 2 →
      networkSummarizeJson (.arr (x :: rest)) d m
        = "[" ++ String.intercalate ", "
            ((x :: rest).map (fun y => networkSummarizeJson y (d + 1) m)) ++ "]") ∧
    (∀ (x : Json) (rest : List Json) (d m : Nat), 2 < rest.length + 1 →
      networkSummarizeJson (.arr (x :: rest)) d m
        = "[" ++ networkSummarizeJson x (d + 1) m
            ++ ", ... (" ++ toString (rest.length + 1) ++ " items total)]") ∧
    (∀ (x : Json) (rest : List Json) (d m : Nat), rest.length + 1 ≤ 3 →
      fileSummarizeJsonValue (.arr (x :: rest)) d m
        = "[" ++ String.intercalate ", "
            ((x :: rest).map (fun y => fileSummarizeJsonValue y (d + 1) m)) ++ "]") ∧
    (∀ (x : Json) (rest : List Json) (d m : Nat), 3 < rest.length + 1 →
      fileSummarizeJsonValue (.arr (x :: rest)) d m
        = "[" ++ String.intercalate ", "
            (((x :: rest).map (fun y => fileSummarizeJsonValue y (d + 1) m)).take 3)
            ++ ", ... (" ++ toString (rest.length + 1) ++ " items total)]") := by
  refine ⟨?_, ?_, ?_, ?_, ?_, ?_⟩
  · intro xs d m hdm hlen
    have h1 : ¬ d ≥ m := by omega
    rcases xs with _ | ⟨x, rest⟩
    · simp [compressJsonValue, h1]
    · simp [compressJsonValue, h1, hlen, compressJsonElems_eq_map]
      intro h
      exact absurd h (by simp at hlen; omega)
  · intro xs d m hdm hlen
    have h1 : ¬ d ≥ m := by omega
    rcases xs with _ | ⟨x, rest⟩
    · simp at hlen
    · have h5 : ¬ (x :: rest).length ≤ 5 := by omega
      simp [compressJsonValue, h1, h5, compressJsonElems_eq_map]
      intro h
      exact absurd h (by simp at h5; omega)
  · intro x rest d m hlen
    simp [networkSummarizeJson, hlen, networkSummarizeElems_eq_map]
  · intro x rest d m hlen
    have h2 : ¬ rest.length + 1 ≤ 2 := by omega
    simp [networkSummarizeJson, h2]
  · intro x rest d m hlen
    simp [fileSummarizeJsonValue, hlen, fileSummarizeElems_eq_map]
  · intro x rest d m hlen
    have h3 : ¬ rest.length + 1 ≤ 3 := by omega
    simp [fileSummarizeJsonValue, h3, fileSummarizeElems_eq_map]

/-- C6, counterexample to the claim as stated: on a 4-element array the
network summarizer keeps only the first element (not the first 3), and
the appended count is the total (4), not the remainder — the summary of
the second element ("2") occurs nowhere in the output. -/
theorem c6_counterexample :
    networkSummarizeJson (.arr [.int 1, .int 2, .int 3, .int 4]) 0 2
      = "[1, ... (4 items total)]" ∧
    (networkSummarizeJson (.arr [.int 1, .int 2, .int 3, .int 4]) 0 2).data.contains '2'
      = false :=
  ⟨rfl, rfl⟩

theorem c6_witness :
    0 < 2 ∧
    5 < ([Json.int 1, .int 2, .int 3, .int 4, .int 5, .int 6] : List Json).length ∧
    compressJsonValue (.arr [.int 1, .int 2, .int 3, .int 4, .int 5, .int 6]) 0 2
      = .arr [.int 1, .int 2, .int 3, .str "... (3 more items)"] := by
  refine ⟨by decide, by decide, ?_⟩
  rw [c6_array_summarization.2.1 [.int 1, .int 2, .int 3, .int 4, .int 5, .int 6] 0 2
    (by decide) (by decide)]
  rfl

/-! ### C7 / C8 — lint grouping and important ungrouped lines -/

theorem mem_of_lookupRule {m : List (String × List String)} {k : String}
    {V : List String} (h : lookupRule m k = some V) : (k, V) ∈ m := by
  unfold lookupRule at h
  cases hf : m.find? (fun p => decide (p.1 = k)) with
  | none => rw [hf] at h; cases h
  | some p =>
      rw [hf] at h
      have hp : p ∈ m := List.mem_of_find?_eq_some hf
      have hk : p.1 = k := by
        have := List.find?_some hf
        simpa using this
      have hv : p.2 = V := by simpa using h
      rcases p with ⟨pk, pv⟩
      simp only at hk hv
      rw [← hk, ← hv]
      exact hp

theorem mem_insertByCountDesc {x y : String × List String}
    {l : List (String × List String)} :
    x ∈ insertByCountDesc y l ↔ x = y ∨ x ∈ l := by
  induction l with
  | nil => simp [insertByCountDesc]
  | cons z rest ih =>
      unfold insertByCountDesc
      split
      · rw [List.mem_cons, ih, List.mem_cons]
        tauto
      · rw [List.mem_cons]

theorem mem_sortRulesDesc_aux {x : String × List String}
    (l acc : List (String × List String)) :
    x ∈ l.foldl (fun acc z => insertByCountDesc z acc) acc ↔ x ∈ acc ∨ x ∈ l := by
  induction l generalizing acc with
  | nil => simp
  | cons z rest ih =>
      rw [List.foldl_cons, ih]
      simp only [mem_insertByCountDesc, List.mem_cons]
      tauto

theorem mem_sortRulesDesc {x : String × List String}
    {l : List (String × List String)} :
    x ∈ sortRulesDesc l ↔ x ∈ l := by
  unfold sortRulesDesc
  rw [mem_sortRulesDesc_aux]
  simp

theorem mem_lintResultLines_of_mem_block {ec gt : Nat} {sc : LintScan}
    {rv : String × List String} {x : String}
    (hrv : rv ∈ sc.byRule)
    (hx : x ∈ lintEmitRule ec gt (lookupRuleD sc.filesByRule rv.1).length rv.1 rv.2) :
    x ∈ lintResultLines ec gt sc := by
  unfold lintResultLines
  have hflat : x ∈ (sortRulesDesc sc.byRule).flatMap
      (fun rv => lintEmitRule ec gt (lookupRuleD sc.filesByRule rv.1).length rv.1 rv.2) :=
    List.mem_flatMap.mpr ⟨rv, mem_sortRulesDesc.mpr hrv, hx⟩
  simp only [List.cons_append, List.mem_cons, List.mem_append]
  tauto

/-- C7: for K parseable occurrences of rule R (across F distinct
parsed file paths): above the grouping threshold the output contains
the line `␣␣R: K occurrences` (with ` in F files` appended when F > 1),
the first example_count occurrence lines, and a remainder count when
K > example_count; at or below the threshold every occurrence line
appears individually. -/
theorem c7_lint_grouping (ec gt : Nat) (output : String) (R : String) (V : List String)
    (hne : pyStrip output ≠ "")
    (hlook : lookupRule (lintScan (pySplitLines output)).byRule R = some V) :
    lintProcess ec gt output
      = joinLines (lintResultLines ec gt (lintScan (pySplitLines output))) ∧
    (gt < V.length →
      ("  " ++ R ++ ": " ++ toString V.length ++ " occurrences" ++
          (if 1 < (lookupRuleD (lintScan (pySplitLines output)).filesByRule R).length
           then " in " ++
             toString (lookupRuleD (lintScan (pySplitLines output)).filesByRule R).length
             ++ " files"
           else ""))
        ∈ lintResultLines ec gt (lintScan (pySplitLines output)) ∧
      (∀ v ∈ V.take ec,
        ("    " ++ v) ∈ lintResultLines ec gt (lintScan (pySplitLines output))) ∧
      (ec < V.length →
        ("    ... (" ++ toString (V.length - ec) ++ " more)")
          ∈ lintResultLines ec gt (lintScan (pySplitLines output)))) ∧
    (V.length ≤ gt →
      ∀ v ∈ V, ("  " ++ v) ∈ lintResultLines ec gt (lintScan (pySplitLines output))) := by
  have hmem : (R, V) ∈ (lintScan (pySplitLines output)).byRule := mem_of_lookupRule hlook
  have hempty : (lintScan (pySplitLines output)).byRule.isEmpty = false := by
    cases h : (lintScan (pySplitLines output)).byRule with
    | nil => rw [h] at hmem; cases hmem
    | cons a l => rfl
  refine ⟨?_, ?_, ?_⟩
  · unfold lintProcess
    rw [if_neg hne]
    simp only [hempty, Bool.false_eq_true, if_false]
  · intro hgt
    have hrule : lintEmitRule ec gt (lookupRuleD (lintScan (pySplitLines output)).filesByRule R).length R V
        = ["  " ++ R ++ ": " ++ toString V.length ++ " occurrences" ++
            (if 1 < (lookupRuleD (lintScan (pySplitLines output)).filesByRule R).length
             then " in " ++
               toString (lookupRuleD (lintScan (pySplitLines output)).filesByRule R).length
               ++ " files"
             else "")]
          ++ (V.take ec).map (fun v => "    " ++ v)
          ++ (if V.length > ec then
                ["    ... (" ++ toString (V.length - ec) ++ " more)"]
              else []) := by
      unfold lintEmitRule
      rw [if_pos hgt]
    refine ⟨?_, ?_, ?_⟩
    · refine mem_lintResultLines_of_mem_block hmem ?_
      rw [hrule]
      simp
    · intro v hv
      refine mem_lintResultLines_of_mem_block hmem ?_
      rw [hrule]
      simp only [List.append_assoc, List.mem_append, List.mem_cons, List.mem_map]
      exact Or.inr (Or.inl ⟨v, hv, rfl⟩)
    · intro hec
      refine mem_lintResultLines_of_mem_block hmem ?_
      rw [hrule]
      have : V.length > ec := hec
      simp [this]
  · intro hle v hv
    refine mem_lintResultLines_of_mem_block hmem ?_
    show ("  " ++ v) ∈ lintEmitRule ec gt
      (lookupRuleD (lintScan (pySplitLines output)).filesByRule R).length R V
    unfold lintEmitRule
    rw [if_neg (by omega)]
    exact List.mem_map.mpr ⟨v, hv, rfl⟩

theorem c7_witness :
    pyStrip "a.py:1:2: E501 line too long\nb.py:3:4: E501 x2\na.py:5:6: E501 x3\nc.py:7:8: E501 x4" ≠ "" ∧
    lookupRule (lintScan (pySplitLines
        "a.py:1:2: E501 line too long\nb.py:3:4: E501 x2\na.py:5:6: E501 x3\nc.py:7:8: E501 x4")).byRule "E501"
      = some ["a.py:1:2: E501 line too long", "b.py:3:4: E501 x2",
              "a.py:5:6: E501 x3", "c.py:7:8: E501 x4"] ∧
    ("  E501: 4 occurrences in 3 files")
      ∈ lintResultLines 2 3 (lintScan (pySplitLines
          "a.py:1:2: E501 line too long\nb.py:3:4: E501 x2\na.py:5:6: E501 x3\nc.py:7:8: E501 x4")) := by
  refine ⟨by decide, by decide, ?_⟩
  have h := (c7_lint_grouping 2 3
    "a.py:1:2: E501 line too long\nb.py:3:4: E501 x2\na.py:5:6: E501 x3\nc.py:7:8: E501 x4"
    "E501"
    ["a.py:1:2: E501 line too long", "b.py:3:4: E501 x2", "a.py:5:6: E501 x3", "c.py:7:8: E501 x4"]
    (by decide) (by decide)).2.1 (by decide)
  exact h.1

/-- C8, counterexample to the claim as stated: with six ungrouped lines
containing the failure keyword "cannot" (and one parseable violation),
only the first five are retained; the sixth is dropped. -/
theorem c8_counterexample :
    "cannot open file6" ∉ pySplitLines (lintProcess 2 3
      "a.py:1:2: E501 x\ncannot open file1\ncannot open file2\ncannot open file3\ncannot open file4\ncannot open file5\ncannot open file6") ∧
    "cannot open file5" ∈ pySplitLines (lintProcess 2 3
      "a.py:1:2: E501 x\ncannot open file1\ncannot open file2\ncannot open file3\ncannot open file4\ncannot open file5\ncannot open file6") := by
  constructor
  · decide
  · decide

/-- C8 (amended): when the output has at least one parseable violation,
an ungrouped line containing a failure/fatal keyword is retained iff it
is among the first five such lines; lines beyond the fifth are
dropped. -/
theorem c8_important_ungrouped (ec gt : Nat) (output v : String)
    (hne : pyStrip output ≠ "")
    (hvio : (lintScan (pySplitLines output)).byRule.isEmpty = false)
    (hv : v ∈ (lintImportantUngrouped (lintScan (pySplitLines output)).ungrouped).take 5) :
    lintProcess ec gt output
      = joinLines (lintResultLines ec gt (lintScan (pySplitLines output))) ∧
    v ∈ lintResultLines ec gt (lintScan (pySplitLines output)) := by
  constructor
  · unfold lintProcess
    rw [if_neg hne]
    simp only [hvio, Bool.false_eq_true, if_false]
  · unfold lintResultLines
    simp only [List.cons_append, List.mem_cons, List.mem_append]
    tauto

theorem c8_witness :
    "cannot open file5"
      ∈ (lintImportantUngrouped (lintScan (pySplitLines
          "a.py:1:2: E501 x\ncannot open file1\ncannot open file2\ncannot open file3\ncannot open file4\ncannot open file5\ncannot open file6")).ungrouped).take 5 ∧
    "cannot open file5" ∈ lintResultLines 2 3 (lintScan (pySplitLines
      "a.py:1:2: E501 x\ncannot open file1\ncannot open file2\ncannot open file3\ncannot open file4\ncannot open file5\ncannot open file6")) := by
  refine ⟨by decide, ?_⟩
  exact (c8_important_ungrouped 2 3
    "a.py:1:2: E501 x\ncannot open file1\ncannot open file2\ncannot open file3\ncannot open file4\ncannot open file5\ncannot open file6"
    "cannot open file5" (by decide) (by decide) (by decide)).2

/-! ### C4 — diff context-window fidelity -/

theorem head_of_isCtxLine {l : String} (h : isCtxLine l = true) :
    l.data.head? = some ' ' := by
  unfold isCtxLine pyStartsWith at h
  cases hd : l.data with
  | nil =>
      rw [hd] at h
      have h' : List.isPrefixOf [' '] ([] : List Char) = true := h
      simp [List.isPrefixOf] at h'
  | cons c cs =>
      rw [hd] at h
      have h' : List.isPrefixOf [' '] (c :: cs) = true := h
      simp only [List.isPrefixOf, Bool.and_eq_true, beq_iff_eq] at h'
      simp [← h'.1]

theorem head_of_isDiffGit {l : String} (h : isDiffGit l = true) :
    l.data.head? = some 'd' := by
  unfold isDiffGit pyStartsWith at h
  cases hd : l.data with
  | nil =>
      rw [hd] at h
      have h' : List.isPrefixOf ['d','i','f','f',' ','-','-','g','i','t']
          ([] : List Char) = true := h
      simp [List.isPrefixOf] at h'
  | cons c cs =>
      rw [hd] at h
      have h' : List.isPrefixOf ['d','i','f','f',' ','-','-','g','i','t']
          (c :: cs) = true := h
      simp only [List.isPrefixOf, Bool.and_eq_true, beq_iff_eq] at h'
      simp [← h'.1]

theorem head_of_isHunkHeader {l : String} (h : isHunkHeader l = true) :
    l.data.head? = some '@' := by
  unfold isHunkHeader pyStartsWith at h
  cases hd : l.data with
  | nil =>
      rw [hd] at h
      have h' : List.isPrefixOf ['@','@'] ([] : List Char) = true := h
      simp [List.isPrefixOf] at h'
  | cons c cs =>
      rw [hd] at h
      have h' : List.isPrefixOf ['@','@'] (c :: cs) = true := h
      simp only [List.isPrefixOf, Bool.and_eq_true, beq_iff_eq] at h'
      simp [← h'.1]

theorem head_of_isChangeLine {l : String} (h : isChangeLine l = true) :
    l.data.head? = some '+' ∨ l.data.head? = some '-' := by
  unfold isChangeLine pyStartsWith at h
  rcases Bool.or_eq_true_iff.mp h with h | h
  · left
    cases hd : l.data with
    | nil =>
        rw [hd] at h
        have h' : List.isPrefixOf ['+'] ([] : List Char) = true := h
        simp [List.isPrefixOf] at h'
    | cons c cs =>
        rw [hd] at h
        have h' : List.isPrefixOf ['+'] (c :: cs) = true := h
        simp only [List.isPrefixOf, Bool.and_eq_true, beq_iff_eq] at h'
        simp [← h'.1]
  · right
    cases hd : l.data with
    | nil =>
        rw [hd] at h
        have h' : List.isPrefixOf ['-'] ([] : List Char) = true := h
        simp [List.isPrefixOf] at h'
    | cons c cs =>
        rw [hd] at h
        have h' : List.isPrefixOf ['-'] (c :: cs) = true := h
        simp only [List.isPrefixOf, Bool.and_eq_true, beq_iff_eq] at h'
        simp [← h'.1]

theorem head_of_isMetaLine {l : String} (h : isMetaLine l = true) :
    l.data.head? = some 'i' ∨ l.data.head? = some '-' ∨ l.data.head? = some '+' := by
  unfold isMetaLine pyStartsWith at h
  rcases Bool.or_eq_true_iff.mp h with h | h
  · rcases Bool.or_eq_true_iff.mp h with h | h
    · left
      cases hd : l.data with
      | nil =>
          rw [hd] at h
          have h' : List.isPrefixOf ['i','n','d','e','x',' '] ([] : List Char) = true := h
          simp [List.isPrefixOf] at h'
      | cons c cs =>
          rw [hd] at h
          have h' : List.isPrefixOf ['i','n','d','e','x',' '] (c :: cs) = true := h
          simp only [List.isPrefixOf, Bool.and_eq_true, beq_iff_eq] at h'
          simp [← h'.1]
    · right; left
      cases hd : l.data with
      | nil =>
          rw [hd] at h
          have h' : List.isPrefixOf ['-','-','-'] ([] : List Char) = true := h
          simp [List.isPrefixOf] at h'
      | cons c cs =>
          rw [hd] at h
          have h' : List.isPrefixOf ['-','-','-'] (c :: cs) = true := h
          simp only [List.isPrefixOf, Bool.and_eq_true, beq_iff_eq] at h'
          simp [← h'.1]
  · right; right
    cases hd : l.data with
    | nil =>
        rw [hd] at h
        have h' : List.isPrefixOf ['+','+','+'] ([] : List Char) = true := h
        simp [List.isPrefixOf] at h'
    | cons c cs =>
        rw [hd] at h
        have h' : List.isPrefixOf ['+','+','+'] (c :: cs) = true := h
        simp only [List.isPrefixOf, Bool.and_eq_true, beq_iff_eq] at h'
        simp [← h'.1]

theorem ctx_not_change {l : String} (h : isCtxLine l = true) :
    isChangeLine l = false := by
  cases hc : isChangeLine l
  · rfl
  · rcases head_of_isChangeLine hc with hh | hh <;>
      rw [head_of_isCtxLine h] at hh <;> cases hh

theorem ctx_not_marker {l : String} (h : isCtxLine l = true) :
    IsMarker l = false := by
  unfold IsMarker
  have h1 : isDiffGit l = false := by
    cases hc : isDiffGit l
    · rfl
    · have := head_of_isDiffGit hc
      rw [head_of_isCtxLine h] at this
      cases this
  have h2 : isHunkHeader l = false := by
    cases hc : isHunkHeader l
    · rfl
    · have := head_of_isHunkHeader hc
      rw [head_of_isCtxLine h] at this
      cases this
  rw [h1, h2]
  rfl

theorem ctx_not_meta {l : String} (h : isCtxLine l = true) :
    isMetaLine l = false := by
  cases hc : isMetaLine l
  · rfl
  · rcases head_of_isMetaLine hc with hh | hh | hh <;>
      rw [head_of_isCtxLine h] at hh <;> cases hh

theorem change_not_ctx {l : String} (h : isChangeLine l = true) :
    isCtxLine l = false := by
  cases hc : isCtxLine l
  · rfl
  · rw [ctx_not_change hc] at h
    cases h

theorem diffGit_not_ctx {l : String} (h : isDiffGit l = true) :
    isCtxLine l = false := by
  cases hc : isCtxLine l
  · rfl
  · have := head_of_isDiffGit h
    rw [head_of_isCtxLine hc] at this
    cases this

theorem hunk_not_ctx {l : String} (h : isHunkHeader l = true) :
    isCtxLine l = false := by
  cases hc : isCtxLine l
  · rfl
  · have := head_of_isHunkHeader h
    rw [head_of_isCtxLine hc] at this
    cases this

theorem meta_not_hunk {l : String} (h : isMetaLine l = true) :
    isHunkHeader l = false := by
  cases hc : isHunkHeader l
  · rfl
  · rcases head_of_isMetaLine h with hh | hh | hh <;>
      rw [head_of_isHunkHeader hc] at hh <;> cases hh

theorem truncMsg_ctx (maxHunk : Nat) : isCtxLine (diffTruncMsg maxHunk) = true := by
  unfold diffTruncMsg isCtxLine pyStartsWith
  rw [List.isPrefixOf_iff_prefix, String.data_append, String.data_append]
  exact List.IsPrefix.trans
    (show [' '] <+: "  ... (truncated after ".data by decide)
    (by rw [List.append_assoc]; exact List.prefix_append _ _)

theorem diffGit_not_meta {l : String} (h : isDiffGit l = true) :
    isMetaLine l = false := by
  cases hc : isMetaLine l
  · rfl
  · rcases head_of_isMetaLine hc with hh | hh | hh <;>
      rw [head_of_isDiffGit h] at hh <;> cases hh

theorem hunk_not_meta {l : String} (h : isHunkHeader l = true) :
    isMetaLine l = false := by
  cases hc : isMetaLine l
  · rfl
  · rcases head_of_isMetaLine hc with hh | hh | hh <;>
      rw [head_of_isHunkHeader h] at hh <;> cases hh

theorem mem_pyLastSlice {α : Type} {x : α} {k : Nat} {l : List α}
    (h : x ∈ pyLastSlice k l) : x ∈ l := by
  unfold pyLastSlice at h
  split at h
  · exact h
  · exact List.mem_of_mem_drop h

theorem diffStep_result_mono (mh mc : Nat) (st : DiffState) (l : String) :
    ∃ δ, (diffStep mh mc st l).result = st.result ++ δ := by
  unfold diffStep
  split_ifs <;>
    first
      | exact ⟨[], (List.append_nil _).symm⟩
      | exact ⟨_, List.append_assoc _ _ _⟩
      | exact ⟨_, rfl⟩

theorem foldl_result_mono (mh mc : Nat) :
    ∀ (ls : List String) (st : DiffState),
      ∃ δ, (ls.foldl (diffStep mh mc) st).result = st.result ++ δ := by
  intro ls
  induction ls with
  | nil => intro st; exact ⟨[], (List.append_nil _).symm⟩
  | cons l rest ih =>
      intro st
      obtain ⟨δ₁, h₁⟩ := diffStep_result_mono mh mc st l
      obtain ⟨δ₂, h₂⟩ := ih (diffStep mh mc st l)
      exact ⟨δ₁ ++ δ₂, by rw [List.foldl_cons, h₂, h₁, List.append_assoc]⟩

theorem mem_foldl_result (mh mc : Nat) {x : String} {st : DiffState}
    (ls : List String) (h : x ∈ st.result) :
    x ∈ (ls.foldl (diffStep mh mc) st).result := by
  obtain ⟨δ, hδ⟩ := foldl_result_mono mh mc ls st
  rw [hδ]
  exact List.mem_append_left _ h

theorem diffCapOK_step (mh mc : Nat) (st : DiffState) (l₀ : String) (rest : List String)
    (hcap : diffCapOK mh st.hunkLineCount (l₀ :: rest) = true) :
    diffCapOK mh (diffStep mh mc st l₀).hunkLineCount rest = true := by
  unfold diffCapOK at hcap
  unfold diffStep
  by_cases h1 : isDiffGit l₀ = true
  · rw [if_pos h1] at hcap
    rw [if_pos h1]
    exact hcap
  · rw [if_neg h1] at hcap
    rw [if_neg h1]
    by_cases h2 : isMetaLine l₀ = true
    · rw [if_pos h2] at hcap
      rw [if_pos h2]
      exact hcap
    · rw [if_neg h2] at hcap
      rw [if_neg h2]
      by_cases h3 : isHunkHeader l₀ = true
      · rw [if_pos h3] at hcap
        rw [if_pos h3]
        exact hcap
      · rw [if_neg h3] at hcap
        rw [if_neg h3]
        by_cases h4 : isChangeLine l₀ = true
        · rw [if_pos (by simp [h4])] at hcap
          simp only [Bool.and_eq_true, decide_eq_true_eq] at hcap
          rw [if_pos h4, if_pos hcap.1]
          exact hcap.2
        · by_cases h5 : isCtxLine l₀ = true
          · rw [if_pos (by simp [h5])] at hcap
            simp only [Bool.and_eq_true, decide_eq_true_eq] at hcap
            rw [if_neg h4, if_pos h5, if_pos hcap.1]
            split
            · exact hcap.2
            · exact hcap.2
          · rw [if_neg (by simp [h4, h5])] at hcap
            rw [if_neg h4, if_neg h5]
            split
            · exact hcap
            · exact hcap

theorem diff_changed_in_foldl (mh mc : Nat) :
    ∀ (ls : List String) (st : DiffState),
      diffCapOK mh st.hunkLineCount ls = true →
      ∀ l ∈ ls, isChangeLine l = true → isMetaLine l = false →
        l ∈ (ls.foldl (diffStep mh mc) st).result := by
  intro ls
  induction ls with
  | nil => intro st _ l hl; cases hl
  | cons l₀ rest ih =>
      intro st hcap l hl hch hmeta
      rw [List.foldl_cons]
      rcases List.mem_cons.mp hl with rfl | hl'
      · have hdg : ¬ isDiffGit l = true := by
          intro hc
          rcases head_of_isChangeLine hch with hh | hh <;>
            rw [head_of_isDiffGit hc] at hh <;> cases hh
        have hhh : ¬ isHunkHeader l = true := by
          intro hc
          rcases head_of_isChangeLine hch with hh | hh <;>
            rw [head_of_isHunkHeader hc] at hh <;> cases hh
        have hmeta' : ¬ isMetaLine l = true := by rw [hmeta]; simp
        unfold diffCapOK at hcap
        rw [if_neg hdg, if_neg hmeta', if_neg hhh, if_pos (by simp [hch])] at hcap
        simp only [Bool.and_eq_true, decide_eq_true_eq] at hcap
        apply mem_foldl_result
        unfold diffStep
        rw [if_neg hdg, if_neg hmeta', if_neg hhh, if_pos hch, if_pos hcap.1]
        simp
      · exact ih (diffStep mh mc st l₀) (diffCapOK_step mh mc st l₀ rest hcap) l hl' hch hmeta

theorem diffStep_no_meta (mh mc : Nat) (st : DiffState) (l₀ : String)
    (h1 : ∀ x ∈ st.result, isMetaLine x = false)
    (h2 : ∀ x ∈ st.leadingBuffer, isCtxLine x = true)
    (h3 : isMetaLine st.statLine = false) :
    (∀ x ∈ (diffStep mh mc st l₀).result, isMetaLine x = false) ∧
    (∀ x ∈ (diffStep mh mc st l₀).leadingBuffer, isCtxLine x = true) ∧
    isMetaLine (diffStep mh mc st l₀).statLine = false := by
  have htr : ∀ x ∈ (if st.hunkTruncated then [diffTruncMsg mh] else ([] : List String)),
      isMetaLine x = false := by
    intro x hx
    split at hx
    · simp only [List.mem_singleton] at hx
      rw [hx]
      exact ctx_not_meta (truncMsg_ctx mh)
    · cases hx
  unfold diffStep
  by_cases hdg : isDiffGit l₀ = true
  · rw [if_pos hdg]
    refine ⟨?_, ?_, h3⟩
    · intro x hx
      rcases List.mem_append.mp hx with hx | hx
      · rcases List.mem_append.mp hx with hx | hx
        · exact h1 x hx
        · exact htr x hx
      · simp only [List.mem_singleton] at hx
        rw [hx]
        exact diffGit_not_meta hdg
    · intro x hx
      cases hx
  · rw [if_neg hdg]
    by_cases hmeta : isMetaLine l₀ = true
    · rw [if_pos hmeta]
      exact ⟨h1, h2, h3⟩
    · rw [if_neg hmeta]
      have hmeta' : isMetaLine l₀ = false := by
        cases h : isMetaLine l₀
        · rfl
        · exact absurd h hmeta
      by_cases hhh : isHunkHeader l₀ = true
      · rw [if_pos hhh]
        refine ⟨?_, ?_, h3⟩
        · intro x hx
          rcases List.mem_append.mp hx with hx | hx
          · rcases List.mem_append.mp hx with hx | hx
            · exact h1 x hx
            · exact htr x hx
          · simp only [List.mem_singleton] at hx
            rw [hx]
            exact hmeta'
        · intro x hx
          cases hx
      · rw [if_neg hhh]
        by_cases hch : isChangeLine l₀ = true
        · rw [if_pos hch]
          split
          · refine ⟨?_, ?_, h3⟩
            · intro x hx
              rcases List.mem_append.mp hx with hx | hx
              · rcases List.mem_append.mp hx with hx | hx
                · exact h1 x hx
                · exact ctx_not_meta (h2 x (mem_pyLastSlice hx))
              · simp only [List.mem_singleton] at hx
                rw [hx]
                exact hmeta'
            · intro x hx
              cases hx
          · exact ⟨h1, h2, h3⟩
        · rw [if_neg hch]
          by_cases hctx : isCtxLine l₀ = true
          · rw [if_pos hctx]
            split
            · split
              · refine ⟨?_, h2, h3⟩
                intro x hx
                rcases List.mem_append.mp hx with hx | hx
                · exact h1 x hx
                · simp only [List.mem_singleton] at hx
                  rw [hx]
                  exact ctx_not_meta hctx
              · refine ⟨h1, ?_, h3⟩
                intro x hx
                rcases List.mem_append.mp hx with hx | hx
                · exact h2 x hx
                · simp only [List.mem_singleton] at hx
                  rw [hx]
                  exact hctx
            · exact ⟨h1, h2, h3⟩
          · rw [if_neg hctx]
            split
            · exact ⟨h1, h2, hmeta'⟩
            · exact ⟨h1, h2, h3⟩

theorem diff_no_meta_foldl (mh mc : Nat) :
    ∀ (ls : List String) (st : DiffState),
      (∀ x ∈ st.result, isMetaLine x = false) →
      (∀ x ∈ st.leadingBuffer, isCtxLine x = true) →
      isMetaLine st.statLine = false →
      (∀ x ∈ (ls.foldl (diffStep mh mc) st).result, isMetaLine x = false) ∧
      (∀ x ∈ (ls.foldl (diffStep mh mc) st).leadingBuffer, isCtxLine x = true) ∧
      isMetaLine (ls.foldl (diffStep mh mc) st).statLine = false := by
  intro ls
  induction ls with
  | nil => intro st ha hb hc; exact ⟨ha, hb, hc⟩
  | cons l₀ rest ih =>
      intro st ha hb hc
      rw [List.foldl_cons]
      obtain ⟨ha', hb', hc'⟩ := diffStep_no_meta mh mc st l₀ ha hb hc
      exact ih (diffStep mh mc st l₀) ha' hb' hc'

theorem filter_eq_append_cons_decomp {α : Type} (p : α → Bool) :
    ∀ (l f₁ f₂ : List α) (x : α), l.filter p = f₁ ++ x :: f₂ →
      ∃ l₁ l₂, l = l₁ ++ x :: l₂ ∧ l₂.filter p = f₂ := by
  intro l
  induction l with
  | nil =>
      intro f₁ f₂ x h
      rw [List.filter_nil] at h
      exact absurd h.symm (by simp)
  | cons a l' ih =>
      intro f₁ f₂ x h
      by_cases pa : p a = true
      · rw [List.filter_cons_of_pos pa] at h
        cases f₁ with
        | nil =>
            simp only [List.nil_append] at h
            injection h with h1 h2
            exact ⟨[], l', by rw [h1]; rfl, h2⟩
        | cons b f₁' =>
            simp only [List.cons_append] at h
            injection h with h1 h2
            obtain ⟨l₁, l₂, he, hf⟩ := ih f₁' f₂ x h2
            exact ⟨a :: l₁, l₂, by rw [he]; rfl, hf⟩
      · rw [List.filter_cons_of_neg pa] at h
        obtain ⟨l₁, l₂, he, hf⟩ := ih f₁ f₂ x h
        exact ⟨a :: l₁, l₂, by rw [he]; rfl, hf⟩

theorem mem_lastSlice_decomp {x : String} {k : Nat} {l : List String}
    (hk : 0 < k) (h : x ∈ pyLastSlice k l) :
    ∃ b₁ b₂, l = b₁ ++ x :: b₂ ∧ b₂.length < k := by
  unfold pyLastSlice at h
  rw [if_neg (by omega)] at h
  obtain ⟨y₁, y₂, hy⟩ := List.append_of_mem h
  have hlen : (l.drop (l.length - k)).length ≤ k := by
    rw [List.length_drop]
    omega
  have hy₂ : y₁.length + (y₂.length + 1) = (l.drop (l.length - k)).length := by
    rw [hy]
    simp [List.length_append]
  refine ⟨l.take (l.length - k) ++ y₁, y₂, ?_, by omega⟩
  conv_lhs => rw [← List.take_append_drop (l.length - k) l]
  rw [hy, List.append_assoc]

theorem bufOk_extend {prefixDone : List String} {l : String} {buf : List String}
    (hbuf : ∃ p₁ p₂, prefixDone = p₁ ++ p₂ ∧
      (∀ x ∈ p₂, IsMarker x = false ∧ (isChangeLine x = true → isMetaLine x = true)) ∧
      buf = p₂.filter isCtxLine)
    (hmark : IsMarker l = false) (hcm : isChangeLine l = true → isMetaLine l = true)
    (hctx : isCtxLine l = false) :
    ∃ p₁ p₂, prefixDone ++ [l] = p₁ ++ p₂ ∧
      (∀ x ∈ p₂, IsMarker x = false ∧ (isChangeLine x = true → isMetaLine x = true)) ∧
      buf = p₂.filter isCtxLine := by
  obtain ⟨p₁, p₂, heq, hpr, hfil⟩ := hbuf
  refine ⟨p₁, p₂ ++ [l], by rw [heq, List.append_assoc], ?_, ?_⟩
  · intro x hx
    rcases List.mem_append.mp hx with hx | hx
    · exact hpr x hx
    · simp only [List.mem_singleton] at hx
      subst hx
      exact ⟨hmark, hcm⟩
  · rw [List.filter_append, show List.filter isCtxLine [l] = [] from by simp [hctx],
        List.append_nil]
    exact hfil

theorem trailDecomp_extend_nonctx {mc : Nat} {prefixDone : List String} {l : String} {t : Nat}
    (hdec : ∃ p₁ c p₂, prefixDone = p₁ ++ c :: p₂ ∧ isChangeLine c = true ∧
      isMetaLine c = false ∧ (∀ x ∈ p₂, IsMarker x = false) ∧
      (p₂.filter isCtxLine).length = mc - t)
    (hmark : IsMarker l = false) (hctx : isCtxLine l = false) :
    ∃ p₁ c p₂, prefixDone ++ [l] = p₁ ++ c :: p₂ ∧ isChangeLine c = true ∧
      isMetaLine c = false ∧ (∀ x ∈ p₂, IsMarker x = false) ∧
      (p₂.filter isCtxLine).length = mc - t := by
  obtain ⟨p₁, c, p₂, heq, hc, hm, hpr, hcnt⟩ := hdec
  refine ⟨p₁, c, p₂ ++ [l], by rw [heq]; simp, hc, hm, ?_, ?_⟩
  · intro x hx
    rcases List.mem_append.mp hx with hx | hx
    · exact hpr x hx
    · simp only [List.mem_singleton] at hx
      subst hx
      exact hmark
  · rw [List.filter_append, show List.filter isCtxLine [l] = [] from by simp [hctx],
        List.append_nil]
    exact hcnt

/-- Preservation of the diff-scan invariant by one step, under the
per-hunk cap and a positive context window. -/
theorem diffStep_inv (mh mc : Nat) (hmc : 0 < mc) (lines : List String)
    (prefixDone rest : List String) (l : String) (st : DiffState)
    (hlines : lines = prefixDone ++ l :: rest)
    (hinv : DiffInv mc lines prefixDone st)
    (hcap : diffCapOK mh st.hunkLineCount (l :: rest) = true) :
    DiffInv mc lines (prefixDone ++ [l]) (diffStep mh mc st l) := by
  obtain ⟨hres, hbuf, htrail, hstat, htrunc⟩ := hinv
  have hcap' := hcap
  unfold diffCapOK at hcap'
  unfold DiffInv
  unfold diffStep
  by_cases hdg : isDiffGit l = true
  · rw [if_pos hdg]
    refine ⟨?_, ⟨prefixDone ++ [l], [], by simp, by simp, rfl⟩, ?_, hstat, rfl⟩
    · intro s hs hmem
      rw [htrunc] at hmem
      simp only [Bool.false_eq_true, if_false, List.append_nil] at hmem
      rcases List.mem_append.mp hmem with hx | hx
      · exact hres s hs hx
      · simp only [List.mem_singleton] at hx
        subst hx
        rw [diffGit_not_ctx hdg] at hs
        cases hs
    · intro h0
      simp at h0
  · rw [if_neg hdg]
    have hdgf : isDiffGit l = false := by
      cases h : isDiffGit l
      · rfl
      · exact absurd h hdg
    by_cases hmeta : isMetaLine l = true
    · rw [if_pos hmeta]
      have hmark : IsMarker l = false := by
        unfold IsMarker
        rw [hdgf, meta_not_hunk hmeta]
        rfl
      have hctxf : isCtxLine l = false := by
        cases h : isCtxLine l
        · rfl
        · rw [ctx_not_meta h] at hmeta; cases hmeta
      refine ⟨hres, bufOk_extend hbuf hmark (fun _ => hmeta) hctxf, ?_, hstat, htrunc⟩
      intro htr
      obtain ⟨hle, hbe, hdec⟩ := htrail htr
      exact ⟨hle, hbe, trailDecomp_extend_nonctx hdec hmark hctxf⟩
    · rw [if_neg hmeta]
      have hmetaf : isMetaLine l = false := by
        cases h : isMetaLine l
        · rfl
        · exact absurd h hmeta
      by_cases hhh : isHunkHeader l = true
      · rw [if_pos hhh]
        refine ⟨?_, ⟨prefixDone ++ [l], [], by simp, by simp, rfl⟩, ?_, hstat, rfl⟩
        · intro s hs hmem
          rw [htrunc] at hmem
          simp only [Bool.false_eq_true, if_false, List.append_nil] at hmem
          rcases List.mem_append.mp hmem with hx | hx
          · exact hres s hs hx
          · simp only [List.mem_singleton] at hx
            subst hx
            rw [hunk_not_ctx hhh] at hs
            cases hs
        · intro h0
          simp at h0
      · rw [if_neg hhh]
        have hhhf : isHunkHeader l = false := by
          cases h : isHunkHeader l
          · rfl
          · exact absurd h hhh
        by_cases hch : isChangeLine l = true
        · -- a changed line; the cap guarantees we are under the hunk limit
          rw [if_pos hch]
          rw [if_neg hdg, if_neg hmeta, if_neg hhh, if_pos (by simp [hch])] at hcap'
          simp only [Bool.and_eq_true, decide_eq_true_eq] at hcap'
          rw [if_pos hcap'.1]
          refine ⟨?_, ⟨prefixDone ++ [l], [], by simp, by simp, rfl⟩, ?_, hstat, htrunc⟩
          · intro s hs hmem
            rcases List.mem_append.mp hmem with hx | hx
            · rcases List.mem_append.mp hx with hx | hx
              · exact hres s hs hx
              · -- s was flushed from the leading buffer: it is near the change l
                obtain ⟨p₁, p₂, heq, hpr, hfil⟩ := hbuf
                obtain ⟨b₁, b₂, hb, hblen⟩ := mem_lastSlice_decomp hmc hx
                rw [hfil] at hb
                obtain ⟨q₁, q₂, hq, hqf⟩ :=
                  filter_eq_append_cons_decomp isCtxLine p₂ b₁ b₂ s hb
                refine Or.inl ⟨p₁ ++ q₁, q₂, l, rest, ?_, hch, hmetaf, ?_, ?_⟩
                · rw [hlines, heq, hq]
                  simp
                · intro x hx'
                  exact (hpr x (by rw [hq]; simp [hx'])).1
                · rw [hqf]
                  omega
            · simp only [List.mem_singleton] at hx
              subst hx
              rw [change_not_ctx hch] at hs
              cases hs
          · intro _
            refine ⟨le_refl mc, rfl, prefixDone, l, [], by simp, hch, hmetaf, by simp, ?_⟩
            simp
        · rw [if_neg hch]
          have hchf : isChangeLine l = false := by
            cases h : isChangeLine l
            · rfl
            · exact absurd h hch
          by_cases hctx : isCtxLine l = true
          · rw [if_pos hctx]
            rw [if_neg hdg, if_neg hmeta, if_neg hhh, if_pos (by simp [hctx])] at hcap'
            simp only [Bool.and_eq_true, decide_eq_true_eq] at hcap'
            rw [if_pos hcap'.1]
            by_cases htr : st.trailingRemaining > 0
            · rw [if_pos htr]
              obtain ⟨hle, hbe, p₁, c₀, p₂, heq, hc₀, hm₀, hpr, hcnt⟩ := htrail htr
              refine ⟨?_, ⟨prefixDone ++ [l], [], by simp, by simp, hbe⟩,
                ?_, hstat, htrunc⟩
              · intro s hs hmem
                rcases List.mem_append.mp hmem with hx | hx
                · exact hres s hs hx
                · simp only [List.mem_singleton] at hx
                  subst hx
                  refine Or.inr ⟨p₁, c₀, p₂, rest, ?_, hc₀, hm₀, hpr, ?_⟩
                  · rw [hlines, heq]
                    simp
                  · omega
              · intro htr2
                have htr2' : st.trailingRemaining - 1 > 0 := htr2
                refine ⟨show st.trailingRemaining - 1 ≤ mc by omega, hbe,
                  p₁, c₀, p₂ ++ [l], by rw [heq]; simp, hc₀, hm₀, ?_, ?_⟩
                · intro x hx
                  rcases List.mem_append.mp hx with hx | hx
                  · exact hpr x hx
                  · simp only [List.mem_singleton] at hx
                    subst hx
                    exact ctx_not_marker hctx
                · show (List.filter isCtxLine (p₂ ++ [l])).length
                    = mc - (st.trailingRemaining - 1)
                  rw [List.filter_append,
                      show List.filter isCtxLine [l] = [l] from by simp [hctx],
                      List.length_append, hcnt]
                  simp only [List.length_singleton]
                  omega
            · rw [if_neg htr]
              have htr0 : st.trailingRemaining = 0 := by omega
              refine ⟨hres, ?_, ?_, hstat, htrunc⟩
              · obtain ⟨p₁, p₂, heq, hpr, hfil⟩ := hbuf
                refine ⟨p₁, p₂ ++ [l], by rw [heq]; simp, ?_, ?_⟩
                · intro x hx
                  rcases List.mem_append.mp hx with hx | hx
                  · exact hpr x hx
                  · simp only [List.mem_singleton] at hx
                    subst hx
                    refine ⟨ctx_not_marker hctx, fun hc => ?_⟩
                    rw [ctx_not_change hctx] at hc
                    cases hc
                · rw [List.filter_append,
                      show List.filter isCtxLine [l] = [l] from by simp [hctx], hfil]
              · intro htr2
                exact absurd htr2 (by simp [htr0])
          · rw [if_neg hctx]
            have hctxf : isCtxLine l = false := by
              cases h : isCtxLine l
              · rfl
              · exact absurd h hctx
            have hmark : IsMarker l = false := by
              unfold IsMarker
              rw [hdgf, hhhf]
              rfl
            have hcm : isChangeLine l = true → isMetaLine l = true := by
              intro hc
              rw [hchf] at hc
              cases hc
            split
            · refine ⟨hres, bufOk_extend hbuf hmark hcm hctxf, ?_, hctxf, htrunc⟩
              intro htr
              obtain ⟨hle, hbe, hdec⟩ := htrail htr
              exact ⟨hle, hbe, trailDecomp_extend_nonctx hdec hmark hctxf⟩
            · refine ⟨hres, bufOk_extend hbuf hmark hcm hctxf, ?_, hstat, htrunc⟩
              intro htr
              obtain ⟨hle, hbe, hdec⟩ := htrail htr
              exact ⟨hle, hbe, trailDecomp_extend_nonctx hdec hmark hctxf⟩

theorem diff_inv_foldl (mh mc : Nat) (hmc : 0 < mc) (lines : List String) :
    ∀ (ls prefixDone : List String) (st : DiffState),
      lines = prefixDone ++ ls →
      DiffInv mc lines prefixDone st →
      diffCapOK mh st.hunkLineCount ls = true →
      DiffInv mc lines (prefixDone ++ ls) (ls.foldl (diffStep mh mc) st) := by
  intro ls
  induction ls with
  | nil =>
      intro prefixDone st _ hinv _
      rw [List.append_nil]
      exact hinv
  | cons l rest ih =>
      intro prefixDone st hlines hinv hcap
      rw [List.foldl_cons]
      have hstep := diffStep_inv mh mc hmc lines prefixDone rest l st hlines hinv hcap
      have hcap' := diffCapOK_step mh mc st l rest hcap
      have hrec := ih (prefixDone ++ [l]) (diffStep mh mc st l)
        (by rw [hlines]; simp) hstep hcap'
      rw [List.append_assoc] at hrec
      exact hrec

/-- C4 (amended): for a diff whose hunks respect the per-hunk line cap
and a positive context window N = max_diff_context_lines: every added/
removed line whose text does not itself begin with "---"/"+++"/"index "
appears verbatim in the reducer's output; no metadata-prefixed line
(blob-hash "index", path restatement "---"/"+++") ever appears; and
every context line in the output is within N context lines of some
change on one side, with no file/hunk marker in between.  (Changed
lines whose content begins with "--" or "++" render as "---…"/"+++…"
and are indistinguishable from metadata, so the reducer drops them —
see the counterexample.) -/
theorem c4_diff_context_window (maxHunk maxContext : Nat) (lines : List String)
    (hmc : 0 < maxContext)
    (hcap : diffCapOK maxHunk 0 lines = true) :
    (∀ l ∈ lines, isChangeLine l = true → isMetaLine l = false →
       l ∈ diffReduce maxHunk maxContext lines) ∧
    (∀ l ∈ diffReduce maxHunk maxContext lines, isMetaLine l = false) ∧
    (∀ s, isCtxLine s = true → s ∈ diffReduce maxHunk maxContext lines →
       NearCtx maxContext lines s) := by
  have hinv0 : DiffInv maxContext lines [] ⟨[], 0, false, "", [], 0⟩ := by
    refine ⟨?_, ⟨[], [], rfl, by simp, rfl⟩, ?_, by decide, rfl⟩
    · intro s _ hmem
      cases hmem
    · intro h
      simp at h
  have hfinal := diff_inv_foldl maxHunk maxContext hmc lines lines []
    ⟨[], 0, false, "", [], 0⟩ rfl hinv0 hcap
  rw [List.nil_append] at hfinal
  obtain ⟨hresF, _, _, hstatF, htruncF⟩ := hfinal
  refine ⟨?_, ?_, ?_⟩
  · intro l hl hch hmeta
    have hmem := diff_changed_in_foldl maxHunk maxContext lines
      ⟨[], 0, false, "", [], 0⟩ hcap l hl hch hmeta
    unfold diffReduce
    exact List.mem_append_left _ (List.mem_append_left _ hmem)
  · have h2 := diff_no_meta_foldl maxHunk maxContext lines ⟨[], 0, false, "", [], 0⟩
      (by intro x hx; cases hx) (by intro x hx; cases hx) (by decide)
    intro l hl
    unfold diffReduce at hl
    rcases List.mem_append.mp hl with hl | hl
    · rcases List.mem_append.mp hl with hl | hl
      · exact h2.1 l hl
      · split at hl
        · simp only [List.mem_singleton] at hl
          rw [hl]
          exact ctx_not_meta (truncMsg_ctx _)
        · cases hl
    · split at hl
      · simp only [List.mem_singleton] at hl
        rw [hl]
        exact h2.2.2
      · cases hl
  · intro s hs hmem
    unfold diffReduce at hmem
    rcases List.mem_append.mp hmem with hl | hl
    · rcases List.mem_append.mp hl with hl | hl
      · exact hresF s hs hl
      · rw [htruncF] at hl
        simp at hl
    · split at hl
      · simp only [List.mem_singleton] at hl
        subst hl
        rw [hstatF] at hs
        cases hs
      · cases hl

/-- C4, counterexample to the claim as stated: the deletion of a line
whose content is "--gone" renders as the changed line "---gone"; it is
surrounded by three context lines on each side and the hunk is far
under the cap, yet the reducer drops it as metadata (and, its buffer
never being flushed, emits no context at all). -/
theorem c4_counterexample :
    diffReduce 150 3
        ["diff --git a/f b/f", "@@ -1,7 +1,6 @@", " c1", " c2", " c3",
         "---gone", " c4", " c5", " c6"]
      = ["diff --git a/f b/f", "@@ -1,7 +1,6 @@"] ∧
    "---gone" ∉ diffReduce 150 3
        ["diff --git a/f b/f", "@@ -1,7 +1,6 @@", " c1", " c2", " c3",
         "---gone", " c4", " c5", " c6"] := by
  constructor
  · decide
  · decide

theorem c4_witness :
    0 < 3 ∧
    diffCapOK 150 0
        ["diff --git a/f b/f", "@@ -1 +1 @@", " a", " b", " c", "+new",
         " d", " e", " f"] = true ∧
    "+new" ∈ diffReduce 150 3
        ["diff --git a/f b/f", "@@ -1 +1 @@", " a", " b", " c", "+new",
         " d", " e", " f"] := by
  refine ⟨by decide, by decide, ?_⟩
  exact (c4_diff_context_window 150 3
    ["diff --git a/f b/f", "@@ -1 +1 @@", " a", " b", " c", "+new", " d", " e", " f"]
    (by decide) (by decide)).1 "+new" (by decide) (by decide) (by decide)

end TokenSaver
